import Mathlib

/-!
Verification of the RadioRecorder capture pipeline (`app/recorders/tunein.py`)
against its natural-language specification.

The development shallowly embeds the pipeline:
* string primitives mirroring the Python operations used by the source
  (`in` substring test, `str.split(' ')[-1]`, `str.replace`, `str.startswith`);
* `getSleepTime` mirroring `TuneinStationRecorder._get_sleep_time`;
* a line scanner mirroring the ad-filter / segment-assembly loop in `_stream`;
* a model of `difflib.ndiff` line matching (`SequenceMatcher` with no junk
  function, as used by `difflib.ndiff`) sufficient to characterise the lines
  the source collects as new (`line.startswith('+')`);
* the `_grab` hour-rotation loop and the `_convert` transcode/tag/delete loop.

External collaborators (dateutil datetime parsing, `float()` parsing, HTTP
fetch results, subprocess and tagging outcomes) are injected as parameters,
matching their interface boundary in the source.
-/

namespace RadioRecorder

/-! ### String primitives

The scanner in `_stream` works on Python `str` values with `in`,
`split(' ')[-1]`, `replace` and `startswith`.  We implement these over
`List Char` by structural recursion so that all definitions evaluate by
kernel reduction. -/

/-- Python `p in s` (substring containment) over character lists. -/
def charsContains (pat : List Char) : List Char → Bool
  | [] => pat.isEmpty
  | c :: rest => pat.isPrefixOf (c :: rest) || charsContains pat rest

/-- Python `pat in s` for strings. -/
def strContains (pat s : String) : Bool :=
  charsContains pat.toList s.toList

/-- Python `s.startswith(p)` for strings. -/
def strStarts (p s : String) : Bool :=
  p.toList.isPrefixOf s.toList

/-- One step of Python `s.replace(pat, rep)`: replace every occurrence of
`pat` in `s` by `rep`, scanning left to right.  The `Nat` argument is a
fuel bounded below by the length of the scanned list; the function
consumes at most one unit of fuel per character consumed, so
`replaceChars pat rep s.length s` computes the full replacement. -/
def replaceChars (pat rep : List Char) : Nat → List Char → List Char
  | 0, s => s
  | _ + 1, [] => []
  | fuel + 1, c :: rest =>
    if pat ≠ [] ∧ pat.isPrefixOf (c :: rest) then
      rep ++ replaceChars pat rep fuel (rest.drop (pat.length - 1))
    else
      c :: replaceChars pat rep fuel rest

/-- Python `s.replace(pat, rep)` for strings (for the nonempty patterns the
source uses). -/
def strReplace (s pat rep : String) : String :=
  ⟨replaceChars pat.toList rep.toList s.toList.length s.toList⟩

/-- Python `s.split(' ')[-1]`: the suffix of `s` after the last space
(the whole string when there is no space). -/
def lastSpaceToken (s : String) : String :=
  ⟨(s.toList.reverse.takeWhile (fun c => c ≠ ' ')).reverse⟩

example : strContains "ab" "xabz" = true := by decide
example : strContains "ab" "xaz" = false := by decide
example : strStarts "#EXT" "#EXT-X-FOO:1" = true := by decide
example : strReplace "#DUR:61" "#DUR:" "" = "61" := by decide
example : lastSpaceToken "+ #EXT-X-FOO:1" = "#EXT-X-FOO:1" := by decide
example : lastSpaceToken "nospace" = "nospace" := by decide

/-! ### Playlist directive constants (from `tunein.py`) -/

/-- Ad-window opening marker, `'X-TUNEIN-AD-EVENT="START"' in new_line`. -/
def adStartMarker : String := "X-TUNEIN-AD-EVENT=\"START\""

/-- Ad-window closing marker, `'X-TUNEIN-AD-EVENT="END"' in new_line`. -/
def adEndMarker : String := "X-TUNEIN-AD-EVENT=\"END\""

/-- Timestamp directive of a segment, `#EXT-X-PROGRAM-DATE-TIME:`. -/
def programDateTimeKey : String := "#EXT-X-PROGRAM-DATE-TIME:"

/-- Availability-duration directive, `#EXT-X-COM-TUNEIN-AVAIL-DUR:`. -/
def availDurKey : String := "#EXT-X-COM-TUNEIN-AVAIL-DUR:"

/-- `TuneinStationRecorder.DEFAULT_SLEEP_TIME = 120`. -/
def DEFAULT_SLEEP_TIME : ℚ := 120

/-! ### `_get_sleep_time`

```
available_duration = None
for line in lines:
    if line.startswith('#EXT-X-COM-TUNEIN-AVAIL-DUR:'):
        try:
            available_duration = float(line.replace('#EXT-X-COM-TUNEIN-AVAIL-DUR:', ''))
        except ValueError:
            pass
        break
return available_duration * 4 // 5 if available_duration else self.DEFAULT_SLEEP_TIME
```

`float(...)` is an external parser; it is injected as
`parseFloat : String → Option ℚ` (`none` models a raised `ValueError`;
the decimal strings the playlist carries are exact rationals).  The loop
`break`s at the *first* matching line whether or not the parse succeeded,
and `if available_duration` is falsy both for `None` and for `0.0`.
Python `//` on numbers is floor division. -/
def getSleepTime (parseFloat : String → Option ℚ) (lines : List String) : ℚ :=
  match lines.find? (fun l => strStarts availDurKey l) with
  | none => DEFAULT_SLEEP_TIME
  | some l =>
    match parseFloat (strReplace l availDurKey "") with
    | none => DEFAULT_SLEEP_TIME
    | some d => if d = 0 then DEFAULT_SLEEP_TIME else (⌊(d * 4 / 5 : ℚ)⌋ : ℚ)

/-- The sleep time contributed by a single availability-duration
directive line, as computed by `_get_sleep_time` once that line has been
selected by its scan. -/
def durDirectiveValue (parseFloat : String → Option ℚ) (l : String) : ℚ :=
  match parseFloat (strReplace l availDurKey "") with
  | none => DEFAULT_SLEEP_TIME
  | some d => if d = 0 then DEFAULT_SLEEP_TIME else (⌊(d * 4 / 5 : ℚ)⌋ : ℚ)

/-! ### Segment assembly (`_stream`, lines 66–83)

```
for new_line in new_lines:
    if 'X-TUNEIN-AD-EVENT="START"' in new_line:
        ad_segment_in_progress = True
    if 'X-TUNEIN-AD-EVENT="END"' in new_line:
        ad_segment_in_progress = False
    if ad_segment_in_progress:
        continue
    line = new_line.split(' ')[-1]
    if line.startswith('#EXT-X-PROGRAM-DATE-TIME:'):
        timestamp = dateutil.parser.parse(line.replace('#EXT-X-PROGRAM-DATE-TIME:', ''))
        current_segment = Segment(timestamp=timestamp)
    if line.startswith('http') and current_segment:
        current_segment.url = line
        self._segment_queue.put_nowait(current_segment)
        current_segment = None
```

`dateutil.parser.parse` is external and is injected as
`parse : String → Option α` over an opaque timestamp type `α`;
`none` models a raised parse error, which nothing in `_stream` catches,
so the scan aborts with `Except.error`. -/

/-- The `Segment` dataclass: `timestamp: datetime`, `url: Optional[str] = None`. -/
structure Segment (α : Type) where
  timestamp : α
  url : Option String := none
  deriving Repr, DecidableEq

/-- The mutable scanner state of `_stream`: the pending `current_segment`
(which, in the source, carries only its timestamp until a url arrives)
and the `ad_segment_in_progress` flag. -/
structure ScanState (α : Type) where
  currentSegment : Option α
  adInProgress : Bool
  deriving Repr, DecidableEq

/-- The ad-window flag update performed on every scanned line
(both `if` statements run before the `continue` check). -/
def stepAdFlag (b : Bool) (newLine : String) : Bool :=
  if strContains adEndMarker newLine then false
  else if strContains adStartMarker newLine then true
  else b

/-- Process one diffed line exactly as the loop body of `_stream` does.
Returns the new state and the segment enqueued by this line, if any;
`Except.error ()` models the uncaught `dateutil` parse error. -/
def processLine (parse : String → Option α) (st : ScanState α) (newLine : String) :
    Except Unit (ScanState α × Option (Segment α)) :=
  let ad := stepAdFlag st.adInProgress newLine
  if ad then
    .ok ({ st with adInProgress := ad }, none)
  else
    let line := lastSpaceToken newLine
    let afterTs : Except Unit (Option α) :=
      if strStarts programDateTimeKey line then
        match parse (strReplace line programDateTimeKey "") with
        | none => .error ()
        | some t => .ok (some t)
      else
        .ok st.currentSegment
    match afterTs with
    | .error e => .error e
    | .ok cur =>
      if strStarts "http" line then
        match cur with
        | some t => .ok (⟨none, false⟩, some ⟨t, some line⟩)
        | none => .ok (⟨cur, false⟩, none)
      else
        .ok (⟨cur, false⟩, none)

/-- Scan a batch of diffed lines in order, collecting the enqueued segments
in queue order; aborts at the first uncaught parse error. -/
def scanLines (parse : String → Option α) (st : ScanState α) :
    List String → Except Unit (ScanState α × List (Segment α))
  | [] => .ok (st, [])
  | l :: rest =>
    match processLine parse st l with
    | .error e => .error e
    | .ok (st', seg?) =>
      match scanLines parse st' rest with
      | .error e => .error e
      | .ok (st'', out) => .ok (st'', seg?.toList ++ out)

/-- Concrete stand-in for `dateutil.parser.parse` used in witnesses and
counterexamples: parses the two payloads `"A"`, `"B"` and rejects the rest. -/
def tParse : String → Option Nat :=
  fun s => if s = "A" then some 0 else if s = "B" then some 1 else none

example :
    scanLines tParse ⟨none, false⟩
      ["+ #EXT-X-PROGRAM-DATE-TIME:A", "+ http://u"] =
    .ok (⟨none, false⟩, [⟨0, some "http://u"⟩]) := rfl

/-! ### The segment differ (`_stream`, lines 62–63)

```
diff = difflib.ndiff(previous_contents, contents)
new_lines = [line for line in diff if line.startswith('+')]
```

`difflib.ndiff(a, b)` runs a line-level `SequenceMatcher(None, a, b)`:
no junk function is supplied, so `bjunk` is empty; the `autojunk`
heuristic (only active when `len(b) >= 200`) removes *popular* elements
(count `> len(b)//100 + 1`) from the index `b2j`.  `Differ.compare`
emits every line of `b` exactly once, prefixed `'+ '` when the line is
not inside a matching block and `'  '` when it is, except that its
intraline stage may additionally emit an identical junk-suppressed pair
as unchanged — such a pair is by construction present in both snapshots,
so it affects neither of the inclusions proved below, and it cannot
occur at all for snapshots shorter than 200 lines.  We therefore model
`new_lines` as the lines of `b` at positions not covered by
`get_matching_blocks`, in order, prefixed with `'+ '`.

All recursions are structural, using an explicit fuel that provably
dominates the recursion depth of the Python original, so that every
definition evaluates by kernel reduction. -/

/-- `SequenceMatcher.b2j[x]`: the ascending list of positions of `x` in `b`,
empty when the autojunk heuristic classifies `x` as popular
(`len(b) >= 200` and `count > len(b)//100 + 1`). -/
def b2jList (b : List String) (x : String) : List Nat :=
  if 200 ≤ b.length ∧ b.length / 100 + 1 < b.count x then []
  else (List.range b.length).filter (fun j => b.getD j "" = x)

/-- The result triple of `find_longest_match`: `a[besti:besti+size]`
matches `b[bestj:bestj+size]`. -/
structure DiffBlock where
  besti : Nat
  bestj : Nat
  size : Nat
  deriving Repr, DecidableEq

/-- The inner `for j in b2j.get(a[i], [])` loop of `find_longest_match`:
threads the best block through the candidate match ends `(i, j)`.
`prevRow j` is `j2len.get(j, 0)` of the previous row, so
`(if j = 0 then 0 else prevRow (j-1)) + 1` is Python's
`j2len[j] = j2lenget(j-1, 0) + 1` (the `-1` key is absent from the dict).
The `j < blo` `continue` / `j >= bhi` `break` guards reduce to a filter
because the position list is ascending. -/
def flmBestInRow (prevRow : Nat → Nat) (i blo bhi : Nat) (js : List Nat)
    (best : DiffBlock) : DiffBlock :=
  js.foldl
    (fun best j =>
      if blo ≤ j ∧ j < bhi then
        let k := (if j = 0 then 0 else prevRow (j - 1)) + 1
        if best.size < k then ⟨i + 1 - k, j + 1 - k, k⟩ else best
      else best)
    best

/-- The next `j2len` row, as a total function (reads out of range give 0,
matching `dict.get(·, 0)`). -/
def flmNextRow (prevRow : Nat → Nat) (js : List Nat) (blo bhi : Nat) : Nat → Nat :=
  fun j =>
    if j ∈ js ∧ blo ≤ j ∧ j < bhi then (if j = 0 then 0 else prevRow (j - 1)) + 1
    else 0

/-- The outer `for i in range(alo, ahi)` loop of `find_longest_match`. -/
def flmLoop (a b : List String) (blo bhi : Nat) :
    List Nat → (Nat → Nat) → DiffBlock → DiffBlock
  | [], _, best => best
  | i :: is, prevRow, best =>
    flmLoop a b blo bhi is
      (flmNextRow prevRow (b2jList b (a.getD i "")) blo bhi)
      (flmBestInRow prevRow i blo bhi (b2jList b (a.getD i "")) best)

/-- The backward extension loop of `find_longest_match`
(`bjunk` is empty here, so `not isbjunk(...)` is always true and the
junk-extension loops never run):

```
while besti > alo and bestj > blo and a[besti-1] == b[bestj-1]:
    besti, bestj, bestsize = besti-1, bestj-1, bestsize+1
```

`besti` strictly decreases, so fuel `besti` dominates the loop. -/
def extendBack (a b : List String) (alo blo : Nat) : Nat → DiffBlock → DiffBlock
  | 0, m => m
  | fuel + 1, m =>
    if alo < m.besti ∧ blo < m.bestj ∧
        a.getD (m.besti - 1) "" = b.getD (m.bestj - 1) "" then
      extendBack a b alo blo fuel ⟨m.besti - 1, m.bestj - 1, m.size + 1⟩
    else m

/-- The forward extension loop of `find_longest_match`:

```
while besti+bestsize < ahi and bestj+bestsize < bhi and a[besti+bestsize] == b[bestj+bestsize]:
    bestsize += 1
```

`ahi - (besti+bestsize)` strictly decreases, so that fuel dominates. -/
def extendFwd (a b : List String) (ahi bhi : Nat) : Nat → DiffBlock → DiffBlock
  | 0, m => m
  | fuel + 1, m =>
    if m.besti + m.size < ahi ∧ m.bestj + m.size < bhi ∧
        a.getD (m.besti + m.size) "" = b.getD (m.bestj + m.size) "" then
      extendFwd a b ahi bhi fuel ⟨m.besti, m.bestj, m.size + 1⟩
    else m

/-- `SequenceMatcher.find_longest_match(alo, ahi, blo, bhi)`:
the dynamic-programming sweep followed by the two extension loops. -/
def findLongestMatch (a b : List String) (alo ahi blo bhi : Nat) : DiffBlock :=
  let core := flmLoop a b blo bhi (List.range' alo (ahi - alo)) (fun _ => 0) ⟨alo, blo, 0⟩
  extendFwd a b ahi bhi bhi (extendBack a b alo blo core.besti core)

/-- `SequenceMatcher.get_matching_blocks`, as the equivalent recursion
(the Python version uses an explicit stack; the recursion regions
before and after a found block, and the final sort/merge, do not change
the set of covered positions).  Each recursive call strictly shrinks
`(ahi - alo) + (bhi - blo)`, so fuel `ahi + bhi + 1` dominates at the
top-level call. -/
def matchingBlocks (a b : List String) : Nat → Nat → Nat → Nat → Nat → List DiffBlock
  | 0, _, _, _, _ => []
  | fuel + 1, alo, ahi, blo, bhi =>
    let m := findLongestMatch a b alo ahi blo bhi
    if m.size = 0 then []
    else
      matchingBlocks a b fuel alo m.besti blo m.bestj ++
        m :: matchingBlocks a b fuel (m.besti + m.size) ahi (m.bestj + m.size) bhi

/-- The matching blocks of the full sequences, as computed inside
`difflib.ndiff(a, b)`. -/
def ndiffBlocks (a b : List String) : List DiffBlock :=
  matchingBlocks a b (a.length + b.length + 1) 0 a.length 0 b.length

/-- Position `j` of `b` lies inside some matching block. -/
def coveredB (blocks : List DiffBlock) (j : Nat) : Bool :=
  blocks.any fun m => decide (m.bestj ≤ j ∧ j < m.bestj + m.size)

/-- The positions and contents of the current-snapshot lines that
`ndiff` reports as added. -/
def ndiffNewBase (a b : List String) : List (Nat × String) :=
  b.enum.filter fun p => !coveredB (ndiffBlocks a b) p.1

/-- `new_lines = [line for line in difflib.ndiff(a, b) if line.startswith('+')]`:
the added lines carry their `'+ '` prefix in the source. -/
def ndiffNewLines (a b : List String) : List String :=
  (ndiffNewBase a b).map fun p => "+ " ++ p.2

/-- The same lines without the `'+ '` prefix: the current-snapshot lines
collected as new. -/
def ndiffNewContent (a b : List String) : List String :=
  (ndiffNewBase a b).map Prod.snd

example : ndiffNewContent ["a", "b"] ["b", "a"] = ["b"] := rfl
example : ndiffNewContent [] ["x", "y"] = ["x", "y"] := rfl
example : ndiffNewContent ["x"] ["x"] = [] := rfl
example : ndiffNewContent ["t"] ["t", "u"] = ["u"] := rfl
example : ndiffNewLines [] ["x"] = ["+ x"] := rfl

/-! ### The polling loop (`_stream`)

One iteration: fetch the playlist text, compute the sleep time, diff
against the previous snapshot, scan the added lines, replace the
snapshot.  `previous_contents`, `current_segment` and
`ad_segment_in_progress` are all initialised *before* `while True:` and
persist across iterations.  The network fetch is injected per iteration
as an `Except Unit (List String)` (`error` models a raised
`aiohttp` error, which nothing in `_stream` catches). -/

/-- The loop-carried state of `_stream`. -/
structure StreamState (α : Type) where
  previousContents : List String
  currentSegment : Option α
  adInProgress : Bool
  deriving Repr

/-- `previous_contents = []`, `current_segment = None`,
`ad_segment_in_progress = False` (lines 49–51). -/
def initialStreamState : StreamState α := ⟨[], none, false⟩

/-- One successful-fetch iteration of `_stream`: sleep-time computation,
diff, scan.  Returns the next loop state, the segments enqueued by this
iteration in queue order, and the computed sleep time; `Except.error`
models an uncaught parse error escaping the loop. -/
def streamIter (parse : String → Option α) (parseFloat : String → Option ℚ)
    (st : StreamState α) (contents : List String) :
    Except Unit (StreamState α × List (Segment α) × ℚ) :=
  let sleepTime := getSleepTime parseFloat contents
  let newLines := ndiffNewLines st.previousContents contents
  match scanLines parse ⟨st.currentSegment, st.adInProgress⟩ newLines with
  | .error e => .error e
  | .ok (scanSt, segs) =>
    .ok (⟨contents, scanSt.currentSegment, scanSt.adInProgress⟩, segs, sleepTime)

/-- Run `_stream` over a finite prefix of fetch outcomes.  Returns all
enqueued segments in queue order, and `true` when the loop was killed by
an uncaught exception (a failed fetch or a failed timestamp parse);
iterations after the killing one are never executed. -/
def streamRun (parse : String → Option α) (parseFloat : String → Option ℚ) :
    StreamState α → List (Except Unit (List String)) → List (Segment α) × Bool
  | _, [] => ([], false)
  | _, .error _ :: _ => ([], true)
  | st, .ok contents :: rest =>
    match streamIter parse parseFloat st contents with
    | .error _ => ([], true)
    | .ok (st', segs, _) =>
      let r := streamRun parse parseFloat st' rest
      (segs ++ r.1, r.2)

/-- Concrete stand-in for `float()` used in witnesses: parses a few
decimal literals exactly. -/
def tParseFloat : String → Option ℚ :=
  fun s =>
    if s = "61" then some 61
    else if s = "60" then some 60
    else if s = "0" then some 0
    else none

/-! ### The segment grabber (`_grab`, lines 92–121)

```
previous_path: Optional[Path] = None
while True:
    segment = await self._segment_queue.get()
    timestamp = segment.timestamp.replace(minute=0).astimezone(timezone)
    filename = f'{timestamp.strftime("%Y-%m-%d-%H-%M")}.ts'
    path = working_dir.joinpath(filename)
    ... append downloaded bytes to path ...
    if previous_path and path != previous_path:
        self._conversion_queue.put_nowait(previous_path)
    previous_path = path
```

The map from a segment's timestamp to its hour file path (minute
truncation, timezone conversion, `strftime`, path join) is injected as
`pathOf`; only path equality matters to the rotation logic. -/

/-- The `_grab` loop over a finite prefix of dequeued segments: returns
the file paths pushed onto the conversion queue, in push order. -/
def grabLoop (pathOf : α → K) [DecidableEq K] :
    Option K → List α → List K
  | _, [] => []
  | prev, s :: rest =>
    let path := pathOf s
    (match prev with
     | some pp => if pp ≠ path then [pp] else []
     | none => []) ++ grabLoop pathOf (some path) rest

/-- The paths `_grab` pushes onto the conversion queue, starting from
`previous_path = None`. -/
def grabPushes (pathOf : α → K) [DecidableEq K] (segs : List α) : List K :=
  grabLoop pathOf none segs

/-- The positions where consecutive hour keys differ: for each adjacent
pair with different keys, the earlier key (the completed file). -/
def changePoints [DecidableEq K] : List K → List K
  | [] => []
  | [_] => []
  | p :: q :: rest => (if p ≠ q then [p] else []) ++ changePoints (q :: rest)

/-- A list is *clustered* when equal elements are consecutive (every
monotone hour-key sequence is clustered).  Fuel-structural on the list
length. -/
def clusteredFuel [DecidableEq K] : Nat → List K → Bool
  | 0, l => l.isEmpty
  | _ + 1, [] => true
  | fuel + 1, v :: rest =>
    let rest' := rest.dropWhile (fun x => x = v)
    !(rest'.contains v) && clusteredFuel fuel rest'

/-- Equal elements occur consecutively. -/
def clustered [DecidableEq K] (l : List K) : Bool :=
  clusteredFuel l.length l

example : grabPushes (fun t : Nat => t / 60) [58, 59, 61, 62, 121] = [0, 1] := rfl
example : grabPushes (fun t : Nat => t / 60) [59, 60, 59, 61] = [0, 1, 0] := rfl
example : clustered [0, 0, 1, 1, 2] = true := rfl
example : clustered [0, 1, 0] = false := rfl

/-! ### The hour transcoder (`_convert`, lines 126–158)

```
process = await asyncio.create_subprocess_exec('ffmpeg', '-i', input_path, output_path, ...)
await process.communicate()          # exit code is never inspected
audio = mutagen.easyid3.EasyID3(output_path)   # raises if the output is unusable
audio['album'] = ...; ...; audio.save()        # raises on failure
input_path.unlink()                  # deleted only after the above
```

The subprocess and the tagging library are external collaborators;
their outcomes for one dequeued file are injected as a `ConvertEnv`.
No exception in `_convert` is caught, so any raised error kills the
transcoder task. -/

/-- Outcomes of the external collaborators for one `_convert` iteration. -/
structure ConvertEnv where
  /-- `create_subprocess_exec` returned instead of raising. -/
  subprocStarts : Bool
  /-- The ffmpeg exit code (returned by `communicate`, never read). -/
  exitCode : Int
  /-- `EasyID3(output_path)` opened the transcoded output file
  (in particular, the file exists). -/
  outputTaggable : Bool
  /-- `audio.save()` persisted the tags. -/
  tagSaveOk : Bool
  deriving Repr, DecidableEq

/-- Observable side effects of one `_convert` iteration, in program order. -/
inductive ConvertEvent where
  | transcodeRun
  | tagApplied
  | sourceDeleted
  deriving Repr, DecidableEq

/-- The exception that killed an iteration, if any. -/
inductive ConvertCrash where
  | spawnFailed
  | tagOpenFailed
  | tagSaveFailed
  deriving Repr, DecidableEq

/-- One `_convert` iteration: the events it performs in order and the
uncaught exception it raises, if any. -/
def convertIter (env : ConvertEnv) : List ConvertEvent × Option ConvertCrash :=
  if !env.subprocStarts then ([], some .spawnFailed)
  else if !env.outputTaggable then ([.transcodeRun], some .tagOpenFailed)
  else if !env.tagSaveOk then ([.transcodeRun], some .tagSaveFailed)
  else ([.transcodeRun, .tagApplied, .sourceDeleted], none)

/-- The `_convert` loop over a finite prefix of dequeued files: the
per-iteration event lists, stopping (task death) at the first uncaught
exception. -/
def convertLoop : List ConvertEnv → List (List ConvertEvent)
  | [] => []
  | env :: rest =>
    let r := convertIter env
    if (r.2).isSome then [r.1] else r.1 :: convertLoop rest

/-! ### Observation predicates for the scanner

These express, over a batch of diffed lines, where a segment's
timestamp and url lines sit and what the ad-window flag was when each
was scanned. -/

/-- The value of the ad-window flag in effect while line `i` of the
batch is processed (the two marker `if`s of the loop body run before
the `continue` check, so the flag has already absorbed line `i`'s own
markers), starting from flag value `b` at the head of the batch. -/
def effAdFlag (b : Bool) (lines : List String) (i : Nat) : Bool :=
  (lines.take (i + 1)).foldl stepAdFlag b

/-- Line `p` of the batch is a timestamp directive line whose payload
parses to `t` (after the `split(' ')[-1]` tokenisation the scanner
applies). -/
def TsLineAt (parse : String → Option α) (lines : List String) (p : Nat) (t : α) : Prop :=
  p < lines.length ∧
    strStarts programDateTimeKey (lastSpaceToken (lines.getD p "")) = true ∧
    parse (strReplace (lastSpaceToken (lines.getD p "")) programDateTimeKey "") = some t

/-- Line `q` of the batch is a url line whose token is `u`. -/
def UrlLineAt (lines : List String) (q : Nat) (u : String) : Prop :=
  q < lines.length ∧
    strStarts "http" (lastSpaceToken (lines.getD q "")) = true ∧
    lastSpaceToken (lines.getD q "") = u

/-- No ad-window start marker occurs strictly between positions `p` and
`q` of the batch. -/
def noAdStartBetween (lines : List String) (p q : Nat) : Prop :=
  ∀ r, p < r → r < q → strContains adStartMarker (lines.getD r "") = false

/-- Concrete diffed batch used to refute C2: a timestamp line, a
complete ad window, then a url line. -/
def c2Lines : List String :=
  ["+ #EXT-X-PROGRAM-DATE-TIME:A",
   "+ #EXT-X-CUE:X-TUNEIN-AD-EVENT=\"START\"",
   "+ #EXT-X-CUE:X-TUNEIN-AD-EVENT=\"END\"",
   "+ http://u"]

/-! ## Lemmas about `_get_sleep_time` -/

theorem find?_eq_some_first {α : Type} (p : α → Bool) :
    ∀ (pre : List α) (l : α) (post : List α),
      (∀ x ∈ pre, p x = false) → p l = true →
      (pre ++ l :: post).find? p = some l := by
  intro pre l post hpre hl
  induction pre with
  | nil => simp [List.find?, hl]
  | cons x rest ih =>
    have hx : p x = false := hpre x (by simp)
    simp only [List.cons_append, List.find?, hx]
    exact ih (fun y hy => hpre y (by simp [hy]))

theorem getSleepTime_first_directive (pf : String → Option ℚ)
    (pre : List String) (l : String) (post : List String)
    (hpre : ∀ x ∈ pre, strStarts availDurKey x = false)
    (hl : strStarts availDurKey l = true) :
    getSleepTime pf (pre ++ l :: post) = durDirectiveValue pf l := by
  unfold getSleepTime durDirectiveValue
  rw [find?_eq_some_first _ pre l post hpre hl]

theorem getSleepTime_no_directive (pf : String → Option ℚ) (lines : List String)
    (h : ∀ x ∈ lines, strStarts availDurKey x = false) :
    getSleepTime pf lines = DEFAULT_SLEEP_TIME := by
  unfold getSleepTime
  rw [List.find?_eq_none.mpr (fun x hx => by simp [h x hx])]

/-- **C8, counterexample.**  The playlist whose first (and only)
availability-duration directive carries the value 61 yields a computed
sleep interval of 48 (Python floor division `61 * 4 // 5`), while the
claim demands `61 * 4/5 = 48.8`.  So the computed interval is *not*
`d * 4/5` for every parsed duration `d`. -/
theorem C8_counterexample :
    getSleepTime tParseFloat ["#EXT-X-COM-TUNEIN-AVAIL-DUR:61"] = 48 ∧
    (61 * 4 / 5 : ℚ) ≠ 48 := by
  constructor
  · have h := getSleepTime_first_directive tParseFloat []
      "#EXT-X-COM-TUNEIN-AVAIL-DUR:61" [] (by intro x hx; simp at hx) (by decide)
    rw [List.nil_append] at h
    rw [h]
    unfold durDirectiveValue
    rw [show strReplace "#EXT-X-COM-TUNEIN-AVAIL-DUR:61" availDurKey "" = "61" from rfl,
      show tParseFloat "61" = some 61 from rfl]
    norm_num
  · norm_num

/-- **C8, amended.**  For every playlist text: if the *first*
availability-duration directive's value parses as a nonzero number `d`,
the computed next-poll sleep interval is `⌊d * 4 / 5⌋` (Python floor
division; value 60 yields 48 exactly); if no directive is present, or
the first directive's value does not parse, the interval is the fixed
default 120. -/
theorem C8_amended :
    (∀ (pf : String → Option ℚ) (pre : List String) (l : String)
        (post : List String) (d : ℚ),
        (∀ x ∈ pre, strStarts availDurKey x = false) →
        strStarts availDurKey l = true →
        pf (strReplace l availDurKey "") = some d → d ≠ 0 →
        getSleepTime pf (pre ++ l :: post) = (⌊(d * 4 / 5 : ℚ)⌋ : ℚ)) ∧
    (∀ (pf : String → Option ℚ) (lines : List String),
        (∀ x ∈ lines, strStarts availDurKey x = false) →
        getSleepTime pf lines = DEFAULT_SLEEP_TIME) ∧
    (∀ (pf : String → Option ℚ) (pre : List String) (l : String)
        (post : List String),
        (∀ x ∈ pre, strStarts availDurKey x = false) →
        strStarts availDurKey l = true →
        pf (strReplace l availDurKey "") = none →
        getSleepTime pf (pre ++ l :: post) = DEFAULT_SLEEP_TIME) := by
  refine ⟨?_, ?_, ?_⟩
  · intro pf pre l post d hpre hl hparse hd
    rw [getSleepTime_first_directive pf pre l post hpre hl]
    unfold durDirectiveValue
    rw [hparse]
    simp [hd]
  · exact getSleepTime_no_directive
  · intro pf pre l post hpre hl hparse
    rw [getSleepTime_first_directive pf pre l post hpre hl]
    unfold durDirectiveValue
    rw [hparse]

/-- **C8, witness.**  Duration directive `60` yields interval 48, and a
directive-free playlist yields the default 120. -/
theorem C8_amended_witness :
    getSleepTime tParseFloat ["#EXT-X-COM-TUNEIN-AVAIL-DUR:60"] =
      (⌊(60 * 4 / 5 : ℚ)⌋ : ℚ) ∧
    (⌊(60 * 4 / 5 : ℚ)⌋ : ℚ) = 48 ∧
    getSleepTime tParseFloat ["#EXTINF:5.0"] = DEFAULT_SLEEP_TIME := by
  refine ⟨?_, by norm_num, ?_⟩
  · have h := C8_amended.1 tParseFloat [] "#EXT-X-COM-TUNEIN-AVAIL-DUR:60" [] 60
      (by intro x hx; simp at hx) (by decide) (by rfl) (by norm_num)
    simpa using h
  · have h := C8_amended.2.1 tParseFloat ["#EXTINF:5.0"]
      (by intro x hx; simp at hx; subst hx; decide)
    exact h

/-- **C10.**  If the first availability-duration directive parses to 0,
the computed sleep interval is the default 120, not 0 (Python's
`if available_duration` is falsy for `0.0`); and only the first
directive is considered: the computed interval does not depend on the
lines after the first directive. -/
theorem C10_zero_duration_and_first_only :
    (∀ (pf : String → Option ℚ) (pre : List String) (l : String)
        (post : List String),
        (∀ x ∈ pre, strStarts availDurKey x = false) →
        strStarts availDurKey l = true →
        pf (strReplace l availDurKey "") = some 0 →
        getSleepTime pf (pre ++ l :: post) = DEFAULT_SLEEP_TIME) ∧
    (∀ (pf : String → Option ℚ) (pre : List String) (l : String)
        (post post' : List String),
        (∀ x ∈ pre, strStarts availDurKey x = false) →
        strStarts availDurKey l = true →
        getSleepTime pf (pre ++ l :: post) = getSleepTime pf (pre ++ l :: post')) := by
  constructor
  · intro pf pre l post hpre hl hparse
    rw [getSleepTime_first_directive pf pre l post hpre hl]
    unfold durDirectiveValue
    rw [hparse]
    simp
  · intro pf pre l post post' hpre hl
    rw [getSleepTime_first_directive pf pre l post hpre hl,
      getSleepTime_first_directive pf pre l post' hpre hl]

/-- **C10, witness.**  A zero duration directive yields 120, and the
interval computed for a playlist is unchanged when the lines after its
first duration directive change. -/
theorem C10_zero_duration_and_first_only_witness :
    getSleepTime tParseFloat ["#EXT-X-COM-TUNEIN-AVAIL-DUR:0"] = DEFAULT_SLEEP_TIME ∧
    getSleepTime tParseFloat
        ["#EXT-X-COM-TUNEIN-AVAIL-DUR:60", "#EXT-X-COM-TUNEIN-AVAIL-DUR:61"] =
      getSleepTime tParseFloat ["#EXT-X-COM-TUNEIN-AVAIL-DUR:60"] := by
  constructor
  · exact C10_zero_duration_and_first_only.1 tParseFloat []
      "#EXT-X-COM-TUNEIN-AVAIL-DUR:0" [] (by intro x hx; simp at hx) (by decide)
      (by rfl)
  · exact C10_zero_duration_and_first_only.2 tParseFloat []
      "#EXT-X-COM-TUNEIN-AVAIL-DUR:60" ["#EXT-X-COM-TUNEIN-AVAIL-DUR:61"] []
      (by intro x hx; simp at hx) (by decide)

/-! ## Lemmas about `_convert` -/

/-- **C5.**  In every `_convert` iteration, the source archive file is
deleted only when the transcoded output file exists (the tagging library
opened it) and tagging succeeded; and the deletion is the last event of
the iteration, strictly after the transcode and tag steps.  If the
subprocess cannot be started, or the output is unusable, or saving the
tags fails, the source file is not deleted in that iteration. -/
theorem C5_delete_only_after_tagging (env : ConvertEnv)
    (h : ConvertEvent.sourceDeleted ∈ (convertIter env).1) :
    env.outputTaggable = true ∧ env.tagSaveOk = true ∧
      env.subprocStarts = true ∧
      (convertIter env).1 =
        [ConvertEvent.transcodeRun, ConvertEvent.tagApplied,
          ConvertEvent.sourceDeleted] := by
  rcases env with ⟨starts, code, taggable, saveOk⟩
  cases starts <;> cases taggable <;> cases saveOk <;>
    simp_all [convertIter]

/-- **C5, witness.**  With every collaborator succeeding, the source is
deleted, after the output was transcoded and tagged. -/
theorem C5_delete_only_after_tagging_witness :
    ConvertEvent.sourceDeleted ∈ (convertIter ⟨true, 0, true, true⟩).1 ∧
      (convertIter ⟨true, 0, true, true⟩).1 =
        [ConvertEvent.transcodeRun, ConvertEvent.tagApplied,
          ConvertEvent.sourceDeleted] :=
  ⟨by decide, (C5_delete_only_after_tagging ⟨true, 0, true, true⟩ (by decide)).2.2.2⟩

/-- **C6, counterexample.**  When the transcoder subprocess exits
non-zero (exit code 1) but its output file is still taggable, `_convert`
raises no error at all and *deletes the source file*: the claim that a
non-zero exit is detected as a `TranscodeError` failure, logged, and
leaves the source file in place, is false — the exit code is never
inspected. -/
theorem C6_counterexample :
    convertIter ⟨true, 1, true, true⟩ =
      ([ConvertEvent.transcodeRun, ConvertEvent.tagApplied,
        ConvertEvent.sourceDeleted], none) := by
  decide

/-- **C6, amended.**  The transcode step never inspects the subprocess
exit code: the behaviour of an iteration is independent of it.  A
subprocess that cannot be started raises an uncaught exception that
terminates the transcoder loop — the source file is left in place, but
the loop does not log-and-continue with the next queued file: the
remaining queued files are never processed. -/
theorem C6_amended (env : ConvertEnv) (c c' : Int) (rest : List ConvertEnv) :
    convertIter { env with exitCode := c } =
        convertIter { env with exitCode := c' } ∧
      (env.subprocStarts = false →
        convertLoop (env :: rest) = [[]] ∧
          ConvertEvent.sourceDeleted ∉ (convertIter env).1) := by
  constructor
  · rcases env with ⟨starts, code, taggable, saveOk⟩
    simp [convertIter]
  · intro h
    rcases env with ⟨starts, code, taggable, saveOk⟩
    simp only at h
    subst h
    simp [convertLoop, convertIter]

/-- **C6, amended, witness.**  Exit codes 0 and 1 produce identical
behaviour, and a spawn failure kills the loop with one further file
queued and unprocessed. -/
theorem C6_amended_witness :
    convertIter ⟨true, (0 : Int), true, true⟩ =
      convertIter ⟨true, (1 : Int), true, true⟩ ∧
    convertLoop
        [⟨false, 0, true, true⟩, ⟨true, 0, true, true⟩] = [[]] ∧
      ConvertEvent.sourceDeleted ∉ (convertIter ⟨false, 0, true, true⟩).1 := by
  refine ⟨?_, ?_⟩
  · exact (C6_amended ⟨true, 0, true, true⟩ 0 1 []).1
  · exact (C6_amended ⟨false, 0, true, true⟩ 0 0 [⟨true, 0, true, true⟩]).2 rfl

/-! ## Lemmas about `_grab` -/

theorem grabLoop_some_eq_changePoints {α K : Type} [DecidableEq K]
    (pathOf : α → K) :
    ∀ (segs : List α) (p : K),
      grabLoop pathOf (some p) segs = changePoints (p :: segs.map pathOf) := by
  intro segs
  induction segs with
  | nil => intro p; rfl
  | cons s rest ih =>
    intro p
    simp only [grabLoop, List.map_cons, changePoints, ih (pathOf s)]

theorem grabPushes_eq_changePoints {α K : Type} [DecidableEq K]
    (pathOf : α → K) (segs : List α) :
    grabPushes pathOf segs = changePoints (segs.map pathOf) := by
  cases segs with
  | nil => rfl
  | cons s rest =>
    simp only [grabPushes, grabLoop, List.map_cons, changePoints]
    simpa using grabLoop_some_eq_changePoints pathOf rest (pathOf s)

theorem changePoints_subset {K : Type} [DecidableEq K] :
    ∀ (l : List K) (x : K), x ∈ changePoints l → x ∈ l := by
  intro l
  induction l with
  | nil => intro x h; simp [changePoints] at h
  | cons p rest ih =>
    intro x h
    cases rest with
    | nil => simp [changePoints] at h
    | cons q t =>
      simp only [changePoints, List.mem_append] at h
      rcases h with h | h
      · split at h <;> simp_all
      · exact List.mem_cons_of_mem p (ih x h)

theorem changePoints_cons_dropWhile {K : Type} [DecidableEq K] :
    ∀ (rest : List K) (v : K),
      changePoints (v :: rest) =
        (if (rest.dropWhile (fun x => x = v)).isEmpty then [] else [v]) ++
          changePoints (rest.dropWhile (fun x => x = v)) := by
  intro rest
  induction rest with
  | nil => intro v; rfl
  | cons w t ih =>
    intro v
    by_cases hwv : w = v
    · subst hwv
      have hdw : (w :: t).dropWhile (fun x => x = w) = t.dropWhile (fun x => x = w) := by
        simp [List.dropWhile]
      rw [hdw]
      have : changePoints (w :: w :: t) = changePoints (w :: t) := by
        simp [changePoints]
      rw [this, ih w]
    · have hdw : (w :: t).dropWhile (fun x => x = v) = w :: t := by
        simp [List.dropWhile, hwv]
      rw [hdw]
      have hvw : ¬v = w := fun h => hwv h.symm
      simp [changePoints, hvw]

theorem dropWhile_length_le {K : Type} (p : K → Bool) (l : List K) :
    (l.dropWhile p).length ≤ l.length := by
  induction l with
  | nil => simp
  | cons a t ih =>
    simp only [List.dropWhile]
    split
    · exact Nat.le_trans ih (Nat.le_succ _)
    · simp

theorem changePoints_count_le_one {K : Type} [DecidableEq K] :
    ∀ (fuel : Nat) (l : List K), clusteredFuel fuel l = true → l.length ≤ fuel →
      ∀ x, (changePoints l).count x ≤ 1 := by
  intro fuel
  induction fuel with
  | zero =>
    intro l hc hlen x
    have : l = [] := List.eq_nil_of_length_eq_zero (Nat.le_zero.mp hlen)
    subst this
    simp [changePoints]
  | succ fuel ih =>
    intro l hc hlen x
    cases l with
    | nil => simp [changePoints]
    | cons v rest =>
      simp only [clusteredFuel, Bool.and_eq_true, Bool.not_eq_true'] at hc
      obtain ⟨hnotin, hrec⟩ := hc
      set rest' := rest.dropWhile (fun x => x = v) with hrest'
      have hlen' : rest'.length ≤ fuel := by
        have h1 : rest'.length ≤ rest.length := dropWhile_length_le _ rest
        have h2 : rest.length ≤ fuel := by
          simpa [List.length_cons, Nat.succ_le_succ_iff] using hlen
        exact Nat.le_trans h1 h2
      have hcp := changePoints_cons_dropWhile rest v
      rw [← hrest'] at hcp
      rw [hcp, List.count_append]
      by_cases hxv : x = v
      · subst hxv
        have hzero : (changePoints rest').count x = 0 := by
          rw [List.count_eq_zero]
          intro hmem
          have hmem' := changePoints_subset rest' x hmem
          have hni : x ∉ rest' := by simpa using hnotin
          exact hni hmem'
        rw [hzero]
        split <;> simp
      · have hone : (if rest'.isEmpty then ([] : List K) else [v]).count x = 0 := by
          split <;> simp [List.count_cons, hxv]
        rw [hone]
        have := ih rest' hrec hlen' x
        omega

/-- **C4, counterexample.**  The segment timestamps (in minutes)
`[59, 60, 59, 61]` are near-monotonic — out of order by one minute of
jitter across the hour boundary — yet `_grab` pushes the hour-0 file
path onto the conversion queue *twice* (and pushes the hour-1 path while
a segment for it is still to come), refuting "pushes each hour file's
path onto the file-ready queue exactly once". -/
theorem C4_counterexample :
    grabPushes (fun t : Nat => t / 60) [59, 60, 59, 61] = [0, 1, 0] ∧
      ([0, 1, 0] : List Nat).count 0 = 2 := by
  constructor
  · rfl
  · rfl

/-- **C4, amended.**  `_grab` pushes a path exactly at hour-key changes:
the pushed sequence is precisely the earlier path of each consecutive
pair of segments with different hour paths (so a push happens only on
processing a segment whose hour key differs from the immediately
preceding segment's).  When the hour-path sequence is clustered — equal
hour keys consecutive, as in any monotone arrival order — each hour
file's path is pushed at most once (and the final hour's file is never
pushed); jitter that re-crosses an hour boundary may push a path
twice. -/
theorem C4_amended {α K : Type} [DecidableEq K] (pathOf : α → K)
    (segs : List α) :
    grabPushes pathOf segs = changePoints (segs.map pathOf) ∧
      (clustered (segs.map pathOf) = true →
        ∀ x, (grabPushes pathOf segs).count x ≤ 1) := by
  refine ⟨grabPushes_eq_changePoints pathOf segs, ?_⟩
  intro hcl x
  rw [grabPushes_eq_changePoints pathOf segs]
  exact changePoints_count_le_one (segs.map pathOf).length (segs.map pathOf) hcl
    (Nat.le_refl _) x

/-- **C4, amended, witness.**  A monotone arrival sequence spanning three
hours: pushes happen exactly at the two hour changes, and no path is
pushed more than once. -/
theorem C4_amended_witness :
    grabPushes (fun t : Nat => t / 60) [58, 59, 61, 121] =
        changePoints ([58, 59, 61, 121].map (fun t : Nat => t / 60)) ∧
      (grabPushes (fun t : Nat => t / 60) [58, 59, 61, 121]).count 0 ≤ 1 :=
  ⟨(C4_amended (fun t : Nat => t / 60) [58, 59, 61, 121]).1,
    (C4_amended (fun t : Nat => t / 60) [58, 59, 61, 121]).2 (by rfl) 0⟩

/-! ## Lemmas about the `_stream` scanner -/

theorem not_ts_and_http (tok : String)
    (h1 : strStarts programDateTimeKey tok = true)
    (h2 : strStarts "http" tok = true) : False := by
  unfold strStarts at h1 h2
  cases htl : tok.toList with
  | nil =>
    rw [htl] at h1
    exact absurd h1 (by decide)
  | cons c cs =>
    rw [htl] at h1 h2
    rw [show programDateTimeKey.toList = '#' :: "EXT-X-PROGRAM-DATE-TIME:".toList from rfl] at h1
    rw [show "http".toList = 'h' :: "ttp".toList from rfl] at h2
    simp only [List.isPrefixOf, Bool.and_eq_true, beq_iff_eq] at h1 h2
    rw [← h1.1] at h2
    exact absurd h2.1 (by decide)

theorem processLine_ad_true (parse : String → Option α) (st : ScanState α)
    (l : String) (had : stepAdFlag st.adInProgress l = true) :
    processLine parse st l = .ok ({ st with adInProgress := true }, none) := by
  simp [processLine, had]

theorem processLine_ts_parse_error (parse : String → Option α) (st : ScanState α)
    (l : String) (had : stepAdFlag st.adInProgress l = false)
    (hts : strStarts programDateTimeKey (lastSpaceToken l) = true)
    (hparse : parse (strReplace (lastSpaceToken l) programDateTimeKey "") = none) :
    processLine parse st l = .error () := by
  simp [processLine, had, hts, hparse]

theorem processLine_ts_set (parse : String → Option α) (st : ScanState α)
    (l : String) (t : α) (had : stepAdFlag st.adInProgress l = false)
    (hts : strStarts programDateTimeKey (lastSpaceToken l) = true)
    (hparse : parse (strReplace (lastSpaceToken l) programDateTimeKey "") = some t) :
    processLine parse st l = .ok (⟨some t, false⟩, none) := by
  have hhttp : strStarts "http" (lastSpaceToken l) = false := by
    cases hh : strStarts "http" (lastSpaceToken l)
    · rfl
    · exact (not_ts_and_http _ hts hh).elim
  simp [processLine, had, hts, hparse, hhttp]

theorem processLine_emit (parse : String → Option α) (st : ScanState α)
    (l : String) (t : α) (had : stepAdFlag st.adInProgress l = false)
    (hts : strStarts programDateTimeKey (lastSpaceToken l) = false)
    (hhttp : strStarts "http" (lastSpaceToken l) = true)
    (hcur : st.currentSegment = some t) :
    processLine parse st l =
      .ok (⟨none, false⟩, some ⟨t, some (lastSpaceToken l)⟩) := by
  simp [processLine, had, hts, hhttp, hcur]

theorem processLine_skip_nohttp (parse : String → Option α) (st : ScanState α)
    (l : String) (had : stepAdFlag st.adInProgress l = false)
    (hts : strStarts programDateTimeKey (lastSpaceToken l) = false)
    (hhttp : strStarts "http" (lastSpaceToken l) = false) :
    processLine parse st l = .ok (⟨st.currentSegment, false⟩, none) := by
  simp [processLine, had, hts, hhttp]

theorem processLine_skip_nocur (parse : String → Option α) (st : ScanState α)
    (l : String) (had : stepAdFlag st.adInProgress l = false)
    (hts : strStarts programDateTimeKey (lastSpaceToken l) = false)
    (hhttp : strStarts "http" (lastSpaceToken l) = true)
    (hcur : st.currentSegment = none) :
    processLine parse st l = .ok (⟨st.currentSegment, false⟩, none) := by
  simp [processLine, had, hts, hhttp, hcur]

theorem effAdFlag_cons_zero (b : Bool) (l : String) (rest : List String) :
    effAdFlag b (l :: rest) 0 = stepAdFlag b l := by
  simp [effAdFlag]

theorem effAdFlag_cons_succ (b : Bool) (l : String) (rest : List String) (i : Nat) :
    effAdFlag b (l :: rest) (i + 1) = effAdFlag (stepAdFlag b l) rest i := by
  simp [effAdFlag, List.take_succ_cons]

theorem tsLineAt_cons (parse : String → Option α) (l : String)
    (rest : List String) (p : Nat) (t : α) (h : TsLineAt parse rest p t) :
    TsLineAt parse (l :: rest) (p + 1) t := by
  obtain ⟨h1, h2, h3⟩ := h
  exact ⟨by simpa using Nat.succ_lt_succ h1, h2, h3⟩

theorem tsLineAt_zero (parse : String → Option α) (l : String)
    (rest : List String) (t : α)
    (hts : strStarts programDateTimeKey (lastSpaceToken l) = true)
    (hparse : parse (strReplace (lastSpaceToken l) programDateTimeKey "") = some t) :
    TsLineAt parse (l :: rest) 0 t :=
  ⟨Nat.succ_pos _, hts, hparse⟩

theorem urlLineAt_cons (l : String) (rest : List String) (q : Nat) (u : String)
    (h : UrlLineAt rest q u) : UrlLineAt (l :: rest) (q + 1) u := by
  obtain ⟨h1, h2, h3⟩ := h
  exact ⟨by simpa using Nat.succ_lt_succ h1, h2, h3⟩

theorem urlLineAt_zero (l : String) (rest : List String)
    (hhttp : strStarts "http" (lastSpaceToken l) = true) :
    UrlLineAt (l :: rest) 0 (lastSpaceToken l) :=
  ⟨Nat.succ_pos _, hhttp, rfl⟩

theorem scanLines_cons_err₁ (parse : String → Option α) (st : ScanState α)
    (l : String) (rest : List String) (e : Unit)
    (hp : processLine parse st l = .error e) :
    scanLines parse st (l :: rest) = .error e := by
  simp only [scanLines, hp]

theorem scanLines_cons_err₂ (parse : String → Option α) (st st' : ScanState α)
    (l : String) (rest : List String) (seg? : Option (Segment α)) (e : Unit)
    (hp : processLine parse st l = .ok (st', seg?))
    (hr : scanLines parse st' rest = .error e) :
    scanLines parse st (l :: rest) = .error e := by
  simp only [scanLines, hp, hr]

theorem scanLines_cons_ok (parse : String → Option α) (st st' st'' : ScanState α)
    (l : String) (rest : List String) (seg? : Option (Segment α))
    (out' : List (Segment α))
    (hp : processLine parse st l = .ok (st', seg?))
    (hr : scanLines parse st' rest = .ok (st'', out')) :
    scanLines parse st (l :: rest) = .ok (st'', seg?.toList ++ out') := by
  simp only [scanLines, hp, hr]


/-- The property established for each enqueued segment: a url line at
`q` scanned with the ad flag clear, whose timestamp was either pending
at batch start (`Pending`) or set by an earlier flag-clear timestamp
line of the batch. -/
def OriginFrom (parse : String → Option α) (b : Bool) (Pending : Prop)
    (lines : List String) (s : Segment α) : Prop :=
  ∃ q, q < lines.length ∧
    (∃ u, s.url = some u ∧ UrlLineAt lines q u) ∧
    effAdFlag b lines q = false ∧
    (Pending ∨
      ∃ p, p < q ∧ TsLineAt parse lines p s.timestamp ∧
        effAdFlag b lines p = false)

theorem originFrom_lift (parse : String → Option α) (b : Bool)
    (P P' : Prop) (l : String) (rest : List String) (s : Segment α)
    (hflagl : stepAdFlag b l = false → P' → P ∨
      (TsLineAt parse (l :: rest) 0 s.timestamp))
    (hP : P' → stepAdFlag b l = false ∨ P)
    (h : OriginFrom parse (stepAdFlag b l) P' rest s) :
    OriginFrom parse b P (l :: rest) s := by
  obtain ⟨q', hq', ⟨u, hu, hurl⟩, hflag, hdisj⟩ := h
  refine ⟨q' + 1, by simpa using Nat.succ_lt_succ hq',
    ⟨u, hu, urlLineAt_cons l rest q' u hurl⟩, ?_, ?_⟩
  · rw [effAdFlag_cons_succ]
    exact hflag
  · rcases hdisj with hpend | ⟨p', hp', hts', hflagp⟩
    · rcases hP hpend with hstep | hPP
      · rcases hflagl hstep hpend with hPP | hts0
        · exact Or.inl hPP
        · exact Or.inr ⟨0, Nat.succ_pos _, hts0, by
            rw [effAdFlag_cons_zero]; exact hstep⟩
      · exact Or.inl hPP
    · exact Or.inr ⟨p' + 1, Nat.succ_lt_succ hp',
        tsLineAt_cons parse l rest p' s.timestamp hts', by
          rw [effAdFlag_cons_succ]; exact hflagp⟩
/-- Every segment enqueued by the scanner has a url line scanned with
the ad-window flag clear, and its timestamp either was already pending
when the batch began or comes from an earlier timestamp line of the
batch also scanned with the flag clear. -/
theorem scanLines_origin (parse : String → Option α) :
    ∀ (lines : List String) (st st2 : ScanState α) (out : List (Segment α)),
      scanLines parse st lines = .ok (st2, out) →
      ∀ s ∈ out,
        OriginFrom parse st.adInProgress
          (st.currentSegment = some s.timestamp) lines s := by
  intro lines
  induction lines with
  | nil =>
    intro st st2 out h s hs
    simp only [scanLines, Except.ok.injEq, Prod.mk.injEq] at h
    rw [← h.2] at hs
    simp at hs
  | cons l rest ih =>
    intro st st2 out h s hs
    by_cases had : stepAdFlag st.adInProgress l = true
    · -- line scanned inside an ad window: skipped, state keeps pending segment
      have hp := processLine_ad_true parse st l had
      cases hrec : scanLines parse { st with adInProgress := true } rest with
      | error e =>
        rw [scanLines_cons_err₂ parse st _ l rest none e hp hrec] at h
        exact absurd h (by simp)
      | ok r =>
        obtain ⟨st'', out'⟩ := r
        rw [scanLines_cons_ok parse st _ st'' l rest none out' hp hrec] at h
        simp only [Except.ok.injEq, Prod.mk.injEq, Option.toList_none,
          List.nil_append] at h
        rw [← h.2] at hs
        have hres : OriginFrom parse true
            (st.currentSegment = some s.timestamp) rest s :=
          ih { st with adInProgress := true } st'' out' hrec s hs
        rw [← had] at hres
        exact originFrom_lift parse st.adInProgress _ _ l rest s
          (fun hstep _ => absurd had (by simp [hstep]))
          (fun hpend => Or.inr hpend)
          hres
    · have hadf : stepAdFlag st.adInProgress l = false := by
        simpa using had
      by_cases hts : strStarts programDateTimeKey (lastSpaceToken l) = true
      · cases hparse : parse (strReplace (lastSpaceToken l) programDateTimeKey "") with
        | none =>
          have hp := processLine_ts_parse_error parse st l hadf hts hparse
          rw [scanLines_cons_err₁ parse st l rest () hp] at h
          exact absurd h (by simp)
        | some t =>
          have hp := processLine_ts_set parse st l t hadf hts hparse
          cases hrec : scanLines parse (⟨some t, false⟩ : ScanState α) rest with
          | error e =>
            rw [scanLines_cons_err₂ parse st _ l rest none e hp hrec] at h
            exact absurd h (by simp)
          | ok r =>
            obtain ⟨st'', out'⟩ := r
            rw [scanLines_cons_ok parse st _ st'' l rest none out' hp hrec] at h
            simp only [Except.ok.injEq, Prod.mk.injEq, Option.toList_none,
              List.nil_append] at h
            rw [← h.2] at hs
            have hres : OriginFrom parse false
                (some t = some s.timestamp) rest s :=
              ih ⟨some t, false⟩ st'' out' hrec s hs
            rw [← hadf] at hres
            refine originFrom_lift parse st.adInProgress _ _ l rest s ?_ ?_ hres
            · intro _ hpend
              refine Or.inr ?_
              have ht : t = s.timestamp := by injection hpend
              rw [← ht]
              exact tsLineAt_zero parse l rest t hts hparse
            · intro _
              exact Or.inl hadf
      · have htsf : strStarts programDateTimeKey (lastSpaceToken l) = false := by
          simpa using hts
        by_cases hhttp : strStarts "http" (lastSpaceToken l) = true
        · cases hcur : st.currentSegment with
          | some t =>
            have hp := processLine_emit parse st l t hadf htsf hhttp hcur
            cases hrec : scanLines parse (⟨none, false⟩ : ScanState α) rest with
            | error e =>
              rw [scanLines_cons_err₂ parse st _ l rest _ e hp hrec] at h
              exact absurd h (by simp)
            | ok r =>
              obtain ⟨st'', out'⟩ := r
              rw [scanLines_cons_ok parse st _ st'' l rest _ out' hp hrec] at h
              simp only [Except.ok.injEq, Prod.mk.injEq, Option.toList_some,
                List.singleton_append] at h
              rw [← h.2] at hs
              rcases List.mem_cons.mp hs with hseg | hs'
              · subst hseg
                refine ⟨0, Nat.succ_pos _,
                  ⟨lastSpaceToken l, rfl, urlLineAt_zero l rest hhttp⟩, ?_, ?_⟩
                · rw [effAdFlag_cons_zero, hadf]
                · exact Or.inl rfl
              · have hres : OriginFrom parse false
                    ((none : Option α) = some s.timestamp) rest s :=
                  ih ⟨none, false⟩ st'' out' hrec s hs'
                rw [← hadf] at hres
                refine originFrom_lift parse st.adInProgress _ _ l rest s ?_ ?_ hres
                · intro _ hpend
                  exact absurd hpend (by simp)
                · intro _
                  exact Or.inl hadf
          | none =>
            have hp := processLine_skip_nocur parse st l hadf htsf hhttp hcur
            rw [hcur] at hp
            cases hrec : scanLines parse (⟨none, false⟩ : ScanState α) rest with
            | error e =>
              rw [scanLines_cons_err₂ parse st _ l rest none e hp hrec] at h
              exact absurd h (by simp)
            | ok r =>
              obtain ⟨st'', out'⟩ := r
              rw [scanLines_cons_ok parse st _ st'' l rest none out' hp hrec] at h
              simp only [Except.ok.injEq, Prod.mk.injEq, Option.toList_none,
                List.nil_append] at h
              rw [← h.2] at hs
              have hres : OriginFrom parse false
                  ((none : Option α) = some s.timestamp) rest s :=
                ih ⟨none, false⟩ st'' out' hrec s hs
              rw [← hadf] at hres
              refine originFrom_lift parse st.adInProgress _ _ l rest s ?_ ?_ hres
              · intro _ hpend
                exact Or.inl hpend
              · intro _
                exact Or.inl hadf
        · have hhttpf : strStarts "http" (lastSpaceToken l) = false := by
            simpa using hhttp
          have hp := processLine_skip_nohttp parse st l hadf htsf hhttpf
          cases hrec : scanLines parse (⟨st.currentSegment, false⟩ : ScanState α) rest with
          | error e =>
            rw [scanLines_cons_err₂ parse st _ l rest none e hp hrec] at h
            exact absurd h (by simp)
          | ok r =>
            obtain ⟨st'', out'⟩ := r
            rw [scanLines_cons_ok parse st _ st'' l rest none out' hp hrec] at h
            simp only [Except.ok.injEq, Prod.mk.injEq, Option.toList_none,
              List.nil_append] at h
            rw [← h.2] at hs
            have hres : OriginFrom parse false
                (st.currentSegment = some s.timestamp) rest s :=
              ih ⟨st.currentSegment, false⟩ st'' out' hrec s hs
            rw [← hadf] at hres
            refine originFrom_lift parse st.adInProgress _ _ l rest s ?_ ?_ hres
            · intro _ hpend
              exact Or.inl hpend
            · intro _
              exact Or.inl hadf

/-- **C2, amended.**  Starting from the clean scanner state, every
enqueued segment comes from a timestamp line at position `p` and a url
line at position `q` of the diffed batch with `p < q`, both scanned
while the ad-window flag was clear.  (The pair may, however, straddle a
*complete* ad window: the pending segment is not discarded when an ad
window opens, so an ad start marker may lie between `p` and `q`.) -/
theorem C2_amended (parse : String → Option α) (lines : List String)
    (st2 : ScanState α) (out : List (Segment α)) (s : Segment α)
    (h : scanLines parse ⟨none, false⟩ lines = .ok (st2, out)) (hs : s ∈ out) :
    ∃ p q, p < q ∧ TsLineAt parse lines p s.timestamp ∧
      (∃ u, s.url = some u ∧ UrlLineAt lines q u) ∧
      effAdFlag false lines p = false ∧ effAdFlag false lines q = false := by
  have hres : OriginFrom parse false ((none : Option α) = some s.timestamp) lines s :=
    scanLines_origin parse lines ⟨none, false⟩ st2 out h s hs
  obtain ⟨q, hq, hurl, hflag, hdisj⟩ := hres
  rcases hdisj with hpend | ⟨p, hpq, hts, hflagp⟩
  · exact absurd hpend (by simp)
  · exact ⟨p, q, hpq, hts, hurl, hflagp, hflag⟩

/-- **C2, amended, witness.**  A two-line batch enqueues one segment,
whose timestamp line precedes its url line, both outside ad windows. -/
theorem C2_amended_witness :
    scanLines tParse ⟨none, false⟩ ["+ #EXT-X-PROGRAM-DATE-TIME:A", "+ http://u"] =
      .ok (⟨none, false⟩, [⟨0, some "http://u"⟩]) ∧
    ∃ p q, p < q ∧
      TsLineAt tParse ["+ #EXT-X-PROGRAM-DATE-TIME:A", "+ http://u"] p
        (⟨0, some "http://u"⟩ : Segment Nat).timestamp ∧
      (∃ u, (⟨0, some "http://u"⟩ : Segment Nat).url = some u ∧
        UrlLineAt ["+ #EXT-X-PROGRAM-DATE-TIME:A", "+ http://u"] q u) ∧
      effAdFlag false ["+ #EXT-X-PROGRAM-DATE-TIME:A", "+ http://u"] p = false ∧
      effAdFlag false ["+ #EXT-X-PROGRAM-DATE-TIME:A", "+ http://u"] q = false := by
  have h : scanLines tParse ⟨none, false⟩
      ["+ #EXT-X-PROGRAM-DATE-TIME:A", "+ http://u"] =
      .ok (⟨none, false⟩, [⟨0, some "http://u"⟩]) := rfl
  exact ⟨h, C2_amended tParse _ _ _ _ h (by simp)⟩

/-- **C2, counterexample.**  In the batch `c2Lines` — a timestamp line,
a complete ad window (start then end markers), then a url line — the
scanner *does* enqueue the segment pairing the timestamp with the url,
even though an ad start marker lies between them: the claim that a
segment is enqueued only when both its lines sit in the same ad-free
window (no ad start marker between them) is false, because
`current_segment` is not cleared when an ad window opens. -/
theorem C2_counterexample :
    scanLines tParse ⟨none, false⟩ c2Lines =
      .ok (⟨none, false⟩, [⟨0, some "http://u"⟩]) ∧
    ¬ ∃ p q, p < q ∧ TsLineAt tParse c2Lines p (0 : Nat) ∧
        UrlLineAt c2Lines q "http://u" ∧
        effAdFlag false c2Lines p = false ∧ effAdFlag false c2Lines q = false ∧
        noAdStartBetween c2Lines p q := by
  constructor
  · rfl
  · rintro ⟨p, q, hpq, hts, hurl, _, _, hnos⟩
    have hp4 : p < 4 := hts.1
    have hq4 : q < 4 := hurl.1
    interval_cases p <;> interval_cases q <;>
      first
        | omega
        | exact absurd hts.2.1 (by decide)
        | exact absurd hurl.2.1 (by decide)
        | exact absurd (hnos 1 (by omega) (by omega)) (by decide)

theorem stepAdFlag_no_markers (b : Bool) (l : String)
    (hs : strContains adStartMarker l = false)
    (he : strContains adEndMarker l = false) :
    stepAdFlag b l = b := by
  simp [stepAdFlag, hs, he]

/-- Scanning a marker-free timestamp line makes the pending segment
irrelevant: from a flag-clear state, two states differing only in their
pending segment behave identically on a batch headed by such a line. -/
theorem scanLines_ts_overwrite (parse : String → Option α)
    (cur cur' : Option α) (l₂ : String) (rest : List String)
    (h₂s : strContains adStartMarker l₂ = false)
    (h₂e : strContains adEndMarker l₂ = false)
    (h₂ts : strStarts programDateTimeKey (lastSpaceToken l₂) = true) :
    scanLines parse ⟨cur, false⟩ (l₂ :: rest) =
      scanLines parse ⟨cur', false⟩ (l₂ :: rest) := by
  have had : stepAdFlag false l₂ = false := stepAdFlag_no_markers false l₂ h₂s h₂e
  cases hp : parse (strReplace (lastSpaceToken l₂) programDateTimeKey "") with
  | none =>
    rw [scanLines_cons_err₁ parse ⟨cur, false⟩ l₂ rest ()
        (processLine_ts_parse_error parse ⟨cur, false⟩ l₂ had h₂ts hp),
      scanLines_cons_err₁ parse ⟨cur', false⟩ l₂ rest ()
        (processLine_ts_parse_error parse ⟨cur', false⟩ l₂ had h₂ts hp)]
  | some t₂ =>
    have hpl : processLine parse (⟨cur, false⟩ : ScanState α) l₂ =
        .ok (⟨some t₂, false⟩, none) :=
      processLine_ts_set parse ⟨cur, false⟩ l₂ t₂ had h₂ts hp
    have hpl' : processLine parse (⟨cur', false⟩ : ScanState α) l₂ =
        .ok (⟨some t₂, false⟩, none) :=
      processLine_ts_set parse ⟨cur', false⟩ l₂ t₂ had h₂ts hp
    cases hrec : scanLines parse (⟨some t₂, false⟩ : ScanState α) rest with
    | error e =>
      rw [scanLines_cons_err₂ parse ⟨cur, false⟩ _ l₂ rest none e hpl hrec,
        scanLines_cons_err₂ parse ⟨cur', false⟩ _ l₂ rest none e hpl' hrec]
    | ok r =>
      obtain ⟨st'', out⟩ := r
      rw [scanLines_cons_ok parse ⟨cur, false⟩ _ st'' l₂ rest none out hpl hrec,
        scanLines_cons_ok parse ⟨cur', false⟩ _ st'' l₂ rest none out hpl' hrec]

/-- **C3, amended.**  Within one batch, a timestamp line that is
immediately followed by another (marker-free, parsable-or-not) timestamp
line contributes nothing: the scan behaves as if the first timestamp
line were absent (it is overwritten, producing no segment).  However —
this is where the original claim fails — a pending timestamp at the end
of a batch *does* persist in `current_segment` across poll iterations
and can pair with a url line of a later iteration. -/
theorem C3_amended (parse : String → Option α) (st : ScanState α)
    (l₁ l₂ : String) (rest : List String)
    (h₁s : strContains adStartMarker l₁ = false)
    (h₁e : strContains adEndMarker l₁ = false)
    (h₁ts : strStarts programDateTimeKey (lastSpaceToken l₁) = true)
    (h₁ok : parse (strReplace (lastSpaceToken l₁) programDateTimeKey "") ≠ none)
    (h₂s : strContains adStartMarker l₂ = false)
    (h₂e : strContains adEndMarker l₂ = false)
    (h₂ts : strStarts programDateTimeKey (lastSpaceToken l₂) = true) :
    scanLines parse st (l₁ :: l₂ :: rest) = scanLines parse st (l₂ :: rest) := by
  obtain ⟨cur, ad⟩ := st
  cases ad with
  | true =>
    have had : stepAdFlag (⟨cur, true⟩ : ScanState α).adInProgress l₁ = true :=
      stepAdFlag_no_markers true l₁ h₁s h₁e
    have hp := processLine_ad_true parse ⟨cur, true⟩ l₁ had
    cases hrec : scanLines parse (⟨cur, true⟩ : ScanState α) (l₂ :: rest) with
    | error e =>
      rw [scanLines_cons_err₂ parse ⟨cur, true⟩ ⟨cur, true⟩ l₁ (l₂ :: rest) none e hp hrec]
    | ok r =>
      obtain ⟨st'', out⟩ := r
      rw [scanLines_cons_ok parse ⟨cur, true⟩ ⟨cur, true⟩ st'' l₁ (l₂ :: rest) none out
        hp hrec]
      simp
  | false =>
    have had : stepAdFlag (⟨cur, false⟩ : ScanState α).adInProgress l₁ = false :=
      stepAdFlag_no_markers false l₁ h₁s h₁e
    cases hp1 : parse (strReplace (lastSpaceToken l₁) programDateTimeKey "") with
    | none => exact absurd hp1 h₁ok
    | some t₁ =>
      have hpl1 : processLine parse (⟨cur, false⟩ : ScanState α) l₁ =
          .ok (⟨some t₁, false⟩, none) :=
        processLine_ts_set parse ⟨cur, false⟩ l₁ t₁ had h₁ts hp1
      have hover := scanLines_ts_overwrite parse (some t₁) cur l₂ rest h₂s h₂e h₂ts
      cases hrec : scanLines parse (⟨some t₁, false⟩ : ScanState α) (l₂ :: rest) with
      | error e =>
        rw [scanLines_cons_err₂ parse ⟨cur, false⟩ _ l₁ (l₂ :: rest) none e hpl1 hrec,
          ← hover, hrec]
      | ok r =>
        obtain ⟨st'', out⟩ := r
        rw [scanLines_cons_ok parse ⟨cur, false⟩ _ st'' l₁ (l₂ :: rest) none out hpl1 hrec,
          ← hover, hrec]
        simp

/-- **C3, amended, witness.**  A batch with two consecutive timestamp
lines scans identically to the batch without the first of them. -/
theorem C3_amended_witness :
    scanLines tParse ⟨none, false⟩
        ["+ #EXT-X-PROGRAM-DATE-TIME:A", "+ #EXT-X-PROGRAM-DATE-TIME:B",
          "+ http://u"] =
      scanLines tParse ⟨none, false⟩
        ["+ #EXT-X-PROGRAM-DATE-TIME:B", "+ http://u"] :=
  C3_amended tParse ⟨none, false⟩ "+ #EXT-X-PROGRAM-DATE-TIME:A"
    "+ #EXT-X-PROGRAM-DATE-TIME:B" ["+ http://u"]
    (by decide) (by decide) (by decide) (by decide) (by decide) (by decide)
    (by decide)

/-- **C3, counterexample.**  Iteration 1 publishes only a timestamp
line; iteration 2 appends a url line, so its diff contains *only* the
url line.  The polling loop nevertheless enqueues a segment pairing the
url of iteration 2 with the timestamp of iteration 1: `current_segment`
is initialised outside `while True:`, so partial segments survive poll
iterations, refuting the claim that a timestamp with no url in its own
iteration produces no segment. -/
theorem C3_counterexample :
    ndiffNewLines ["#EXT-X-PROGRAM-DATE-TIME:A"]
        ["#EXT-X-PROGRAM-DATE-TIME:A", "http://u"] = ["+ http://u"] ∧
    streamRun tParse tParseFloat (initialStreamState : StreamState Nat)
        [.ok ["#EXT-X-PROGRAM-DATE-TIME:A"],
          .ok ["#EXT-X-PROGRAM-DATE-TIME:A", "http://u"]] =
      ([⟨0, some "http://u"⟩], false) :=
  ⟨rfl, rfl⟩

theorem scanLines_append (parse : String → Option α) :
    ∀ (xs : List String) (st : ScanState α) (ys : List String),
      scanLines parse st (xs ++ ys) =
        match scanLines parse st xs with
        | .error e => .error e
        | .ok (st', out) =>
          match scanLines parse st' ys with
          | .error e => .error e
          | .ok (st'', out') => .ok (st'', out ++ out') := by
  intro xs
  induction xs with
  | nil =>
    intro st ys
    cases h : scanLines parse st ys with
    | error e => simp [scanLines, h]
    | ok r => obtain ⟨st'', out'⟩ := r; simp [scanLines, h]
  | cons l xs' ih =>
    intro st ys
    cases hp : processLine parse st l with
    | error e =>
      rw [show (l :: xs') ++ ys = l :: (xs' ++ ys) from rfl,
        scanLines_cons_err₁ parse st l (xs' ++ ys) e hp,
        scanLines_cons_err₁ parse st l xs' e hp]
    | ok r =>
      obtain ⟨st', seg?⟩ := r
      rw [show (l :: xs') ++ ys = l :: (xs' ++ ys) from rfl]
      cases h1 : scanLines parse st' xs' with
      | error e =>
        have hxy := ih st' ys
        simp only [h1] at hxy
        rw [scanLines_cons_err₂ parse st st' l (xs' ++ ys) seg? e hp hxy,
          scanLines_cons_err₂ parse st st' l xs' seg? e hp h1]
      | ok r1 =>
        obtain ⟨st₁, out₁⟩ := r1
        have hxy := ih st' ys
        simp only [h1] at hxy
        cases h2 : scanLines parse st₁ ys with
        | error e =>
          simp only [h2] at hxy
          rw [scanLines_cons_err₂ parse st st' l (xs' ++ ys) seg? e hp hxy,
            scanLines_cons_ok parse st st' st₁ l xs' seg? out₁ hp h1]
          simp [h2]
        | ok r2 =>
          obtain ⟨st₂, out₂⟩ := r2
          simp only [h2] at hxy
          rw [scanLines_cons_ok parse st st' st₂ l (xs' ++ ys) seg? (out₁ ++ out₂) hp hxy,
            scanLines_cons_ok parse st st' st₁ l xs' seg? out₁ hp h1]
          simp [h2]

/-- **C9, amended.**  An unparsable timestamp directive line does not
merely drop that candidate segment: the raised parse error is uncaught.
At the scan level, any batch whose prefix scans cleanly and then
presents a flag-clear unparsable timestamp line aborts the whole scan;
at the loop level, an aborted iteration terminates the polling loop,
and iterations queued after it are never processed. -/
theorem C9_amended (parse : String → Option α) (parseFloat : String → Option ℚ) :
    (∀ (st st₁ : ScanState α) (out₁ : List (Segment α)) (pre : List String)
        (l : String) (post : List String),
        scanLines parse st pre = .ok (st₁, out₁) →
        stepAdFlag st₁.adInProgress l = false →
        strStarts programDateTimeKey (lastSpaceToken l) = true →
        parse (strReplace (lastSpaceToken l) programDateTimeKey "") = none →
        scanLines parse st (pre ++ l :: post) = .error ()) ∧
    (∀ (sst : StreamState α) (contents : List String)
        (rest : List (Except Unit (List String))),
        streamIter parse parseFloat sst contents = .error () →
        streamRun parse parseFloat sst (.ok contents :: rest) = ([], true)) := by
  constructor
  · intro st st₁ out₁ pre l post h hflag hts hparse
    rw [scanLines_append parse pre st (l :: post)]
    simp only [h]
    rw [scanLines_cons_err₁ parse st₁ l post ()
      (processLine_ts_parse_error parse st₁ l hflag hts hparse)]
  · intro sst contents rest h
    simp only [streamRun, h]

/-- **C9, amended, witness.**  A clean prefix followed by an unparsable
timestamp line aborts the scan, and the polling loop halts at an
aborted iteration without touching the queued next iteration. -/
theorem C9_amended_witness :
    scanLines tParse ⟨none, false⟩
        (["+ http://v"] ++ "+ #EXT-X-PROGRAM-DATE-TIME:BAD" :: []) =
      .error () ∧
    streamRun tParse tParseFloat (initialStreamState : StreamState Nat)
        [.ok ["#EXT-X-PROGRAM-DATE-TIME:BAD"],
          .ok ["#EXT-X-PROGRAM-DATE-TIME:A", "http://u"]] = ([], true) :=
  ⟨(C9_amended tParse tParseFloat).1 ⟨none, false⟩ ⟨none, false⟩ []
      ["+ http://v"] "+ #EXT-X-PROGRAM-DATE-TIME:BAD" [] rfl (by decide)
      (by decide) rfl,
    (C9_amended tParse tParseFloat).2 initialStreamState
      ["#EXT-X-PROGRAM-DATE-TIME:BAD"]
      [.ok ["#EXT-X-PROGRAM-DATE-TIME:A", "http://u"]] rfl⟩

/-- **C9, counterexample.**  A batch holding an unparsable timestamp
line followed by a parsable timestamp/url pair yields *no* enqueued
segment and kills the loop (`([], true)`), while the same batch without
the bad line yields the good segment: the parse error is not recovered
locally and the remaining lines are not processed. -/
theorem C9_counterexample :
    streamRun tParse tParseFloat (initialStreamState : StreamState Nat)
        [.ok ["#EXT-X-PROGRAM-DATE-TIME:BAD", "http://u",
          "#EXT-X-PROGRAM-DATE-TIME:A", "http://v"]] = ([], true) ∧
    streamRun tParse tParseFloat (initialStreamState : StreamState Nat)
        [.ok ["#EXT-X-PROGRAM-DATE-TIME:A", "http://v"]] =
      ([⟨0, some "http://v"⟩], false) :=
  ⟨rfl, rfl⟩

/-- **C7, amended.**  A failed playlist fetch terminates the polling
loop: running `_stream` over fetch outcomes containing a failure
behaves exactly as if the failure were the final event — every
iteration after it is dead code, so the failure is *not* confined to
its own iteration. -/
theorem C7_amended (parse : String → Option α) (parseFloat : String → Option ℚ) :
    ∀ (outs : List (Except Unit (List String))) (st : StreamState α)
      (rest : List (Except Unit (List String))) (e : Unit),
      streamRun parse parseFloat st (outs ++ .error e :: rest) =
        streamRun parse parseFloat st (outs ++ [.error e]) := by
  intro outs
  induction outs with
  | nil => intro st rest e; rfl
  | cons o outs' ih =>
    intro st rest e
    cases o with
    | error e' => rfl
    | ok contents =>
      simp only [List.cons_append, streamRun]
      cases hit : streamIter parse parseFloat st contents with
      | error e'' => rfl
      | ok r =>
        obtain ⟨st', segs, slp⟩ := r
        simp only [List.append_eq]
        rw [ih st' rest e]

/-- **C7, counterexample.**  A failed fetch followed by a perfectly
good iteration produces nothing and reports the loop dead, while the
good iteration alone produces its segment: the fetch failure is not
logged-and-skipped, it kills the polling loop. -/
theorem C7_counterexample :
    streamRun tParse tParseFloat (initialStreamState : StreamState Nat)
        [.error (), .ok ["#EXT-X-PROGRAM-DATE-TIME:A", "http://u"]] =
      ([], true) ∧
    streamRun tParse tParseFloat (initialStreamState : StreamState Nat)
        [.ok ["#EXT-X-PROGRAM-DATE-TIME:A", "http://u"]] =
      ([⟨0, some "http://u"⟩], false) :=
  ⟨rfl, rfl⟩

/-! ## Lemmas about the segment differ -/

theorem b2jList_mem (b : List String) (x : String) (j : Nat)
    (h : j ∈ b2jList b x) : j < b.length ∧ b.getD j "" = x := by
  unfold b2jList at h
  split at h
  · simp at h
  · rw [List.mem_filter, List.mem_range] at h
    exact ⟨h.1, of_decide_eq_true h.2⟩

/-- Invariant of a `j2len` row whose runs end at a-index `i - 1`:
a positive entry at `j` is the length of a common run of lines ending
at `(i - 1, j)`, contained in the `[blo, bhi)` × `[alo, ·)` window. -/
def PrevRowInv (a b : List String) (alo blo bhi i : Nat) (row : Nat → Nat) : Prop :=
  ∀ j, 0 < row j →
    blo ≤ j ∧ j < bhi ∧ row j + blo ≤ j + 1 ∧ row j + alo ≤ i ∧
    ∀ t < row j, a.getD (i - 1 - t) "" = b.getD (j - t) ""

/-- Sound blocks of `find_longest_match` on the window
`[alo, ahi) × [blo, bhi)`: either still the initial empty block, or a
nonempty block of pairwise-equal lines inside the window. -/
def GoodBlock (a b : List String) (alo ahi blo bhi : Nat) (m : DiffBlock) : Prop :=
  (m.besti = alo ∧ m.bestj = blo ∧ m.size = 0) ∨
  (0 < m.size ∧ alo ≤ m.besti ∧ m.besti + m.size ≤ ahi ∧ blo ≤ m.bestj ∧
    m.bestj + m.size ≤ bhi ∧
    ∀ t < m.size, a.getD (m.besti + t) "" = b.getD (m.bestj + t) "")

/-- The candidate length `j2len[j] = j2len_prev[j-1] + 1` is a genuine
common-run length ending at `(i, j)`. -/
theorem k_spec (a b : List String) (alo blo bhi i j : Nat) (row : Nat → Nat)
    (hrow : PrevRowInv a b alo blo bhi i row)
    (hai : alo ≤ i) (hjlo : blo ≤ j) (_hjhi : j < bhi)
    (hbj : b.getD j "" = a.getD i "") :
    ((if j = 0 then 0 else row (j - 1)) + 1) + alo ≤ i + 1 ∧
    ((if j = 0 then 0 else row (j - 1)) + 1) + blo ≤ j + 1 ∧
    ∀ t < (if j = 0 then 0 else row (j - 1)) + 1,
      a.getD (i - t) "" = b.getD (j - t) "" := by
  by_cases hj0 : j = 0
  · rw [if_pos hj0]
    refine ⟨by omega, by omega, ?_⟩
    intro t ht
    have ht0 : t = 0 := by omega
    subst ht0
    simpa using hbj.symm
  · simp only [if_neg hj0]
    by_cases hz : 0 < row (j - 1)
    · obtain ⟨h1, h2, h3, h4, h5⟩ := hrow (j - 1) hz
      refine ⟨by omega, by omega, ?_⟩
      intro t ht
      cases t with
      | zero => simpa using hbj.symm
      | succ s =>
        have hs : s < row (j - 1) := by omega
        have h6 := h5 s hs
        have e1 : i - 1 - s = i - (s + 1) := by omega
        have e2 : j - 1 - s = j - (s + 1) := by omega
        rw [e1, e2] at h6
        exact h6
    · have hz0 : row (j - 1) = 0 := by omega
      rw [hz0]
      refine ⟨by omega, by omega, ?_⟩
      intro t ht
      have ht0 : t = 0 := by omega
      subst ht0
      simpa using hbj.symm

theorem prevRowInv_step (a b : List String) (alo blo bhi i : Nat) (row : Nat → Nat)
    (hrow : PrevRowInv a b alo blo bhi i row) (hai : alo ≤ i) :
    PrevRowInv a b alo blo bhi (i + 1)
      (flmNextRow row (b2jList b (a.getD i "")) blo bhi) := by
  intro j hpos
  unfold flmNextRow at hpos ⊢
  by_cases hc : j ∈ b2jList b (a.getD i "") ∧ blo ≤ j ∧ j < bhi
  · rw [if_pos hc] at hpos ⊢
    obtain ⟨hjs, hjlo, hjhi⟩ := hc
    have hbj : b.getD j "" = a.getD i "" := (b2jList_mem b _ j hjs).2
    obtain ⟨hk1, hk2, hk3⟩ := k_spec a b alo blo bhi i j row hrow hai hjlo hjhi hbj
    refine ⟨hjlo, hjhi, hk2, by omega, ?_⟩
    intro t ht
    have e : i + 1 - 1 - t = i - t := by omega
    rw [e]
    exact hk3 t ht
  · rw [if_neg hc] at hpos
    omega

theorem flmBestInRow_good (a b : List String) (alo ahi blo bhi i : Nat)
    (row : Nat → Nat) (hrow : PrevRowInv a b alo blo bhi i row)
    (hai : alo ≤ i) (hih : i < ahi) :
    ∀ (js : List Nat) (best : DiffBlock),
      (∀ j ∈ js, b.getD j "" = a.getD i "") →
      GoodBlock a b alo ahi blo bhi best →
      GoodBlock a b alo ahi blo bhi (flmBestInRow row i blo bhi js best) := by
  intro js
  induction js with
  | nil => intro best _ hbest; exact hbest
  | cons j js' ih =>
    intro best hjs hbest
    have hstep : flmBestInRow row i blo bhi (j :: js') best =
        flmBestInRow row i blo bhi js'
          (if blo ≤ j ∧ j < bhi then
            if best.size < (if j = 0 then 0 else row (j - 1)) + 1 then
              ⟨i + 1 - ((if j = 0 then 0 else row (j - 1)) + 1),
                j + 1 - ((if j = 0 then 0 else row (j - 1)) + 1),
                (if j = 0 then 0 else row (j - 1)) + 1⟩
            else best
          else best) := rfl
    rw [hstep]
    apply ih _ (fun x hx => hjs x (List.mem_cons_of_mem j hx))
    by_cases hc : blo ≤ j ∧ j < bhi
    · rw [if_pos hc]
      by_cases hlt : best.size < (if j = 0 then 0 else row (j - 1)) + 1
      · rw [if_pos hlt]
        obtain ⟨hjlo, hjhi⟩ := hc
        have hbj : b.getD j "" = a.getD i "" := hjs j (List.mem_cons_self j js')
        obtain ⟨hk1, hk2, hk3⟩ := k_spec a b alo blo bhi i j row hrow hai hjlo hjhi hbj
        set k := (if j = 0 then 0 else row (j - 1)) + 1 with hkdef
        refine Or.inr ⟨?_, ?_, ?_, ?_, ?_, ?_⟩
        · show 0 < k
          omega
        · show alo ≤ i + 1 - k
          omega
        · show i + 1 - k + k ≤ ahi
          omega
        · show blo ≤ j + 1 - k
          omega
        · show j + 1 - k + k ≤ bhi
          omega
        · show ∀ t < k, a.getD (i + 1 - k + t) "" = b.getD (j + 1 - k + t) ""
          intro t ht
          have e1 : i + 1 - k + t = i - (k - 1 - t) := by omega
          have e2 : j + 1 - k + t = j - (k - 1 - t) := by omega
          rw [e1, e2]
          exact hk3 _ (by omega)
      · rw [if_neg hlt]; exact hbest
    · rw [if_neg hc]; exact hbest

theorem flmLoop_good (a b : List String) (alo ahi blo bhi : Nat) :
    ∀ (n i₀ : Nat) (row : Nat → Nat) (best : DiffBlock),
      alo ≤ i₀ → i₀ + n ≤ ahi → PrevRowInv a b alo blo bhi i₀ row →
      GoodBlock a b alo ahi blo bhi best →
      GoodBlock a b alo ahi blo bhi
        (flmLoop a b blo bhi (List.range' i₀ n) row best) := by
  intro n
  induction n with
  | zero =>
    intro i₀ row best _ _ _ hbest
    simpa [flmLoop] using hbest
  | succ n ih =>
    intro i₀ row best hai hbound hrow hbest
    rw [List.range'_succ]
    show GoodBlock a b alo ahi blo bhi
      (flmLoop a b blo bhi (List.range' (i₀ + 1) n)
        (flmNextRow row (b2jList b (a.getD i₀ "")) blo bhi)
        (flmBestInRow row i₀ blo bhi (b2jList b (a.getD i₀ "")) best))
    apply ih (i₀ + 1) _ _ (by omega) (by omega)
    · exact prevRowInv_step a b alo blo bhi i₀ row hrow hai
    · exact flmBestInRow_good a b alo ahi blo bhi i₀ row hrow hai (by omega) _ best
        (fun j hj => (b2jList_mem b _ j hj).2) hbest

theorem extendBack_good (a b : List String) (alo ahi blo bhi : Nat) :
    ∀ (fuel : Nat) (m : DiffBlock), GoodBlock a b alo ahi blo bhi m →
      GoodBlock a b alo ahi blo bhi (extendBack a b alo blo fuel m) := by
  intro fuel
  induction fuel with
  | zero => intro m hm; exact hm
  | succ fuel ih =>
    intro m hm
    show GoodBlock a b alo ahi blo bhi
      (if alo < m.besti ∧ blo < m.bestj ∧
          a.getD (m.besti - 1) "" = b.getD (m.bestj - 1) "" then
        extendBack a b alo blo fuel ⟨m.besti - 1, m.bestj - 1, m.size + 1⟩
      else m)
    by_cases hg : alo < m.besti ∧ blo < m.bestj ∧
        a.getD (m.besti - 1) "" = b.getD (m.bestj - 1) ""
    · rw [if_pos hg]
      apply ih
      rcases hm with ⟨h1, _, _⟩ | ⟨hs, h1, h2, h3, h4, h5⟩
      · omega
      · refine Or.inr ⟨?_, ?_, ?_, ?_, ?_, ?_⟩
        · show 0 < m.size + 1
          omega
        · show alo ≤ m.besti - 1
          omega
        · show m.besti - 1 + (m.size + 1) ≤ ahi
          omega
        · show blo ≤ m.bestj - 1
          omega
        · show m.bestj - 1 + (m.size + 1) ≤ bhi
          omega
        · show ∀ t < m.size + 1,
            a.getD (m.besti - 1 + t) "" = b.getD (m.bestj - 1 + t) ""
          intro t ht
          cases t with
          | zero => simpa using hg.2.2
          | succ s =>
            have e1 : m.besti - 1 + (s + 1) = m.besti + s := by omega
            have e2 : m.bestj - 1 + (s + 1) = m.bestj + s := by omega
            rw [e1, e2]
            exact h5 s (by omega)
    · rw [if_neg hg]; exact hm

theorem extendFwd_good (a b : List String) (alo ahi blo bhi : Nat) :
    ∀ (fuel : Nat) (m : DiffBlock), GoodBlock a b alo ahi blo bhi m →
      GoodBlock a b alo ahi blo bhi (extendFwd a b ahi bhi fuel m) := by
  intro fuel
  induction fuel with
  | zero => intro m hm; exact hm
  | succ fuel ih =>
    intro m hm
    show GoodBlock a b alo ahi blo bhi
      (if m.besti + m.size < ahi ∧ m.bestj + m.size < bhi ∧
          a.getD (m.besti + m.size) "" = b.getD (m.bestj + m.size) "" then
        extendFwd a b ahi bhi fuel ⟨m.besti, m.bestj, m.size + 1⟩
      else m)
    by_cases hg : m.besti + m.size < ahi ∧ m.bestj + m.size < bhi ∧
        a.getD (m.besti + m.size) "" = b.getD (m.bestj + m.size) ""
    · rw [if_pos hg]
      apply ih
      rcases hm with ⟨h1, h2, h3⟩ | ⟨hs, h1, h2, h3, h4, h5⟩
      · refine Or.inr ⟨?_, ?_, ?_, ?_, ?_, ?_⟩
        · show 0 < m.size + 1
          omega
        · show alo ≤ m.besti
          omega
        · show m.besti + (m.size + 1) ≤ ahi
          omega
        · show blo ≤ m.bestj
          omega
        · show m.bestj + (m.size + 1) ≤ bhi
          omega
        · show ∀ t < m.size + 1,
            a.getD (m.besti + t) "" = b.getD (m.bestj + t) ""
          intro t ht
          have ht0 : t = 0 := by omega
          subst ht0
          have e1 : m.besti + 0 = m.besti + m.size := by omega
          have e2 : m.bestj + 0 = m.bestj + m.size := by omega
          rw [e1, e2]
          exact hg.2.2
      · refine Or.inr ⟨?_, ?_, ?_, ?_, ?_, ?_⟩
        · show 0 < m.size + 1
          omega
        · show alo ≤ m.besti
          omega
        · show m.besti + (m.size + 1) ≤ ahi
          omega
        · show blo ≤ m.bestj
          omega
        · show m.bestj + (m.size + 1) ≤ bhi
          omega
        · show ∀ t < m.size + 1,
            a.getD (m.besti + t) "" = b.getD (m.bestj + t) ""
          intro t ht
          by_cases hts : t = m.size
          · subst hts
            exact hg.2.2
          · exact h5 t (by omega)
    · rw [if_neg hg]; exact hm

theorem findLongestMatch_good (a b : List String) (alo ahi blo bhi : Nat) :
    GoodBlock a b alo ahi blo bhi (findLongestMatch a b alo ahi blo bhi) := by
  unfold findLongestMatch
  apply extendFwd_good
  apply extendBack_good
  by_cases h : alo ≤ ahi
  · exact flmLoop_good a b alo ahi blo bhi (ahi - alo) alo (fun _ => 0)
      ⟨alo, blo, 0⟩ (Nat.le_refl _) (by omega)
      (fun j hj => by simp at hj) (Or.inl ⟨rfl, rfl, rfl⟩)
  · have h0 : ahi - alo = 0 := by omega
    rw [h0]
    exact Or.inl ⟨rfl, rfl, rfl⟩

theorem matchingBlocks_mem (a b : List String) :
    ∀ (fuel alo ahi blo bhi : Nat) (m : DiffBlock),
      m ∈ matchingBlocks a b fuel alo ahi blo bhi →
      0 < m.size ∧ alo ≤ m.besti ∧ m.besti + m.size ≤ ahi ∧
        blo ≤ m.bestj ∧ m.bestj + m.size ≤ bhi ∧
        ∀ t < m.size, a.getD (m.besti + t) "" = b.getD (m.bestj + t) "" := by
  intro fuel
  induction fuel with
  | zero => intro alo ahi blo bhi m hm; simp [matchingBlocks] at hm
  | succ fuel ih =>
    intro alo ahi blo bhi m hm
    by_cases h0 : (findLongestMatch a b alo ahi blo bhi).size = 0
    · rw [show matchingBlocks a b (fuel + 1) alo ahi blo bhi = [] by
        simp only [matchingBlocks]; rw [if_pos h0]] at hm
      simp at hm
    · rw [show matchingBlocks a b (fuel + 1) alo ahi blo bhi =
          matchingBlocks a b fuel alo (findLongestMatch a b alo ahi blo bhi).besti
            blo (findLongestMatch a b alo ahi blo bhi).bestj ++
          (findLongestMatch a b alo ahi blo bhi) ::
            matchingBlocks a b fuel
              ((findLongestMatch a b alo ahi blo bhi).besti +
                (findLongestMatch a b alo ahi blo bhi).size) ahi
              ((findLongestMatch a b alo ahi blo bhi).bestj +
                (findLongestMatch a b alo ahi blo bhi).size) bhi by
        simp only [matchingBlocks]; rw [if_neg h0]] at hm
      have hgood := findLongestMatch_good a b alo ahi blo bhi
      have hmm : 0 < (findLongestMatch a b alo ahi blo bhi).size ∧
          alo ≤ (findLongestMatch a b alo ahi blo bhi).besti ∧
          (findLongestMatch a b alo ahi blo bhi).besti +
            (findLongestMatch a b alo ahi blo bhi).size ≤ ahi ∧
          blo ≤ (findLongestMatch a b alo ahi blo bhi).bestj ∧
          (findLongestMatch a b alo ahi blo bhi).bestj +
            (findLongestMatch a b alo ahi blo bhi).size ≤ bhi ∧
          ∀ t < (findLongestMatch a b alo ahi blo bhi).size,
            a.getD ((findLongestMatch a b alo ahi blo bhi).besti + t) "" =
              b.getD ((findLongestMatch a b alo ahi blo bhi).bestj + t) "" := by
        rcases hgood with hl | hr
        · exact absurd hl.2.2 h0
        · exact hr
      rcases List.mem_append.mp hm with hleft | hmid
      · obtain ⟨g1, g2, g3, g4, g5, g6⟩ := ih _ _ _ _ m hleft
        exact ⟨g1, g2, by omega, g4, by omega, g6⟩
      · rcases List.mem_cons.mp hmid with heq | hright
        · subst heq
          exact hmm
        · obtain ⟨g1, g2, g3, g4, g5, g6⟩ := ih _ _ _ _ m hright
          exact ⟨g1, by omega, g3, by omega, g5, g6⟩

theorem getD_mem_of_lt {β : Type} : ∀ (l : List β) (n : Nat) (d : β),
    n < l.length → l.getD n d ∈ l := by
  intro l
  induction l with
  | nil => intro n d h; simp at h
  | cons x t ih =>
    intro n d h
    cases n with
    | zero => simp [List.getD]
    | succ n =>
      have : t.getD n d ∈ t := ih n d (by simpa using h)
      exact List.mem_cons_of_mem x this

/-- A current-snapshot line inside a matching block occurs in the
previous snapshot. -/
theorem coveredB_mem (a b : List String) (j : Nat)
    (h : coveredB (ndiffBlocks a b) j = true) : b.getD j "" ∈ a := by
  unfold coveredB at h
  rw [List.any_eq_true] at h
  obtain ⟨m, hm, hj⟩ := h
  rw [decide_eq_true_eq] at hj
  obtain ⟨hsz, hia, hia2, hjb, hjb2, heq⟩ :=
    matchingBlocks_mem a b (a.length + b.length + 1) 0 a.length 0 b.length m hm
  have ht : j - m.bestj < m.size := by omega
  have heqt := heq (j - m.bestj) ht
  have hjj : m.bestj + (j - m.bestj) = j := by omega
  rw [hjj] at heqt
  rw [← heqt]
  exact getD_mem_of_lt a _ "" (by omega)

theorem enumFrom_mem_getD : ∀ (l : List String) (n : Nat) (z : Nat × String),
    z ∈ List.enumFrom n l →
    n ≤ z.1 ∧ z.1 - n < l.length ∧ l.getD (z.1 - n) "" = z.2 := by
  intro l
  induction l with
  | nil => intro n z hz; simp at hz
  | cons x t ih =>
    intro n z hz
    rw [show List.enumFrom n (x :: t) = (n, x) :: List.enumFrom (n + 1) t from rfl,
      List.mem_cons] at hz
    rcases hz with hz | hz
    · subst hz
      exact ⟨Nat.le_refl _, by simp, by simp⟩
    · obtain ⟨h1, h2, h3⟩ := ih (n + 1) z hz
      refine ⟨by omega, by simp; omega, ?_⟩
      have e : z.1 - n = (z.1 - (n + 1)) + 1 := by omega
      rw [e]
      simpa using h3

theorem map_snd_filter_enumFrom (q : String → Bool) :
    ∀ (l : List String) (n : Nat),
      ((List.enumFrom n l).filter (fun z => q z.2)).map Prod.snd = l.filter q := by
  intro l
  induction l with
  | nil => intro n; rfl
  | cons x t ih =>
    intro n
    rw [show List.enumFrom n (x :: t) = (n, x) :: List.enumFrom (n + 1) t from rfl]
    by_cases hx : q x = true
    · simp only [List.filter_cons, hx, if_true, List.map_cons]
      rw [ih (n + 1)]
    · have hx' : q x = false := by simpa using hx
      simp only [List.filter_cons, hx']
      exact ih (n + 1)

theorem filter_imp_sublist {β : Type} (p₁ p₂ : β → Bool) :
    ∀ (l : List β), (∀ z ∈ l, p₁ z = true → p₂ z = true) →
      (l.filter p₁).Sublist (l.filter p₂) := by
  intro l
  induction l with
  | nil => intro _; simp
  | cons z l ih =>
    intro h
    have hrest := ih (fun x hx => h x (List.mem_cons_of_mem z hx))
    by_cases h1 : p₁ z = true
    · have h2 : p₂ z = true := h z (List.mem_cons_self z l) h1
      simp only [List.filter_cons, h1, h2]
      exact hrest.cons₂ z
    · have h1' : p₁ z = false := by simpa using h1
      simp only [List.filter_cons, h1']
      by_cases h2 : p₂ z = true
      · simp only [h2]
        exact hrest.cons z
      · have h2' : p₂ z = false := by simpa using h2
        simp only [h2']
        exact hrest

/-- **C1, counterexample.**  For the snapshots `["a", "b"]` and
`["b", "a"]` (same lines, reordered), the lines collected as new are
`["b"]`, while the lines of the current snapshot absent from the
previous one form the empty list (as does their multiset difference):
`difflib.ndiff` keeps only the longest-match line `"a"` as unchanged
and reports `"b"` as added even though it is present in the previous
snapshot, so the differ's output is not "exactly the lines present in
the later snapshot but absent from the earlier one". -/
theorem C1_counterexample :
    ndiffNewContent ["a", "b"] ["b", "a"] = ["b"] ∧
      (["b", "a"].filter (fun x => !(["a", "b"].contains x))) = ([] : List String) :=
  ⟨rfl, rfl⟩

/-- **C1, amended.**  The lines collected as new are, in order, a
sublist of the current snapshot, and they contain (as an ordered
sublist, hence with multiplicity) every occurrence of every line of the
current snapshot that is absent from the previous snapshot.  They may
additionally contain lines that do occur in the previous snapshot (for
example when lines repeat or are reordered). -/
theorem C1_amended (a b : List String) :
    (b.filter (fun x => !(a.contains x))).Sublist (ndiffNewContent a b) ∧
      (ndiffNewContent a b).Sublist b := by
  constructor
  · rw [← map_snd_filter_enumFrom (fun x => !(a.contains x)) b 0]
    unfold ndiffNewContent ndiffNewBase
    apply List.Sublist.map
    apply filter_imp_sublist
    intro z hz hq
    cases hcov : coveredB (ndiffBlocks a b) z.1 with
    | false => simp
    | true =>
      exfalso
      have hmem := coveredB_mem a b z.1 hcov
      obtain ⟨_, _, hgd⟩ := enumFrom_mem_getD b 0 z hz
      rw [Nat.sub_zero] at hgd
      rw [hgd] at hmem
      have hcontains : b.contains z.2 = true ∨ True := Or.inr trivial
      have : a.contains z.2 = true := by
        simpa using hmem
      rw [this] at hq
      simp at hq
  · unfold ndiffNewContent ndiffNewBase
    have h1 := (List.filter_sublist
      (p := fun p => !coveredB (ndiffBlocks a b) p.1) b.enum).map Prod.snd
    rw [List.enum_map_snd] at h1
    exact h1

end RadioRecorder
